import Mathlib

/-!
Verification of the bitfiltrator bitstream codec and bit locator.

Shallow embedding of the Python sources (`src/frame.py`, `src/arch_spec.py`,
`src/packet.py`, `src/bitstream.py`, `src/bit_locator.py`,
`src/bitstream_state_checker.py`) as executable Lean definitions, followed by
theorems about them.  Machine integers are modelled as `Nat` (Python ints are
unbounded); fallible code (Python assertions, enum conversions, out-of-range
indexing) returns `Option` or `Except`.
-/

namespace Bitfiltrator

/-! ### helpers.py -/

/-- Embeds `helpers.bits`: extract the bit slice `[idx_high:idx_low]` of `input`
by shifting right and masking. -/
def bits (input idx_high idx_low : Nat) : Nat :=
  (input >>> idx_low) &&& ((1 <<< (idx_high - idx_low + 1)) - 1)

/-- Embeds `helpers.width`: number of bits between the two indices. -/
def width (idx_high idx_low : Nat) : Nat :=
  idx_high - idx_low + 1

theorem bits_eq_div_mod (v hi lo : Nat) :
    bits v hi lo = v / 2 ^ lo % 2 ^ (hi - lo + 1) := by
  unfold bits
  rw [Nat.shiftRight_eq_div_pow, Nat.shiftLeft_eq, one_mul,
    Nat.and_pow_two_sub_one_eq_mod]

theorem bits_lt (v hi lo : Nat) : bits v hi lo < 2 ^ (hi - lo + 1) := by
  rw [bits_eq_div_mod]
  exact Nat.mod_lt _ (Nat.pos_pow_of_pos _ (by omega))

/-! ### arch_spec.py -/

/-- Embeds the abstract `ArchSpec` interface: the FAR sub-field bit indices and
the frame size in 32-bit words of an architecture. -/
structure ArchSpec where
  far_reserved_idx_high : Nat
  far_reserved_idx_low : Nat
  far_block_type_idx_high : Nat
  far_block_type_idx_low : Nat
  far_row_address_idx_high : Nat
  far_row_address_idx_low : Nat
  far_column_address_idx_high : Nat
  far_column_address_idx_low : Nat
  far_minor_address_idx_high : Nat
  far_minor_address_idx_low : Nat
  frame_size_words : Nat
deriving DecidableEq, Repr

def ArchSpec.far_reserved_width (s : ArchSpec) : Nat :=
  width s.far_reserved_idx_high s.far_reserved_idx_low

def ArchSpec.far_block_type_width (s : ArchSpec) : Nat :=
  width s.far_block_type_idx_high s.far_block_type_idx_low

def ArchSpec.far_row_address_width (s : ArchSpec) : Nat :=
  width s.far_row_address_idx_high s.far_row_address_idx_low

def ArchSpec.far_column_address_width (s : ArchSpec) : Nat :=
  width s.far_column_address_idx_high s.far_column_address_idx_low

def ArchSpec.far_minor_address_width (s : ArchSpec) : Nat :=
  width s.far_minor_address_idx_high s.far_minor_address_idx_low

/-- Embeds `UltraScaleSpec` (UG570 table 9-21): FAR layout
`[reserved 31:26][block_type 25:23][row 22:17][col 16:7][minor 6:0]`,
frame size 123 words. -/
def UltraScaleSpec : ArchSpec :=
  { far_reserved_idx_high := 31
    far_reserved_idx_low := 26
    far_block_type_idx_high := 25
    far_block_type_idx_low := 23
    far_row_address_idx_high := 22
    far_row_address_idx_low := 17
    far_column_address_idx_high := 16
    far_column_address_idx_low := 7
    far_minor_address_idx_high := 6
    far_minor_address_idx_low := 0
    frame_size_words := 123 }

/-- Embeds `UltraScalePlusSpec` (UG570 table 9-21): FAR layout
`[reserved 31:27][block_type 26:24][row 23:18][col 17:8][minor 7:0]`,
frame size 93 words. -/
def UltraScalePlusSpec : ArchSpec :=
  { far_reserved_idx_high := 31
    far_reserved_idx_low := 27
    far_block_type_idx_high := 26
    far_block_type_idx_low := 24
    far_row_address_idx_high := 23
    far_row_address_idx_low := 18
    far_column_address_idx_high := 17
    far_column_address_idx_low := 8
    far_minor_address_idx_high := 7
    far_minor_address_idx_low := 0
    frame_size_words := 93 }

/-! ### frame_spec.py -/

/-- Embeds the `FarBlockType` enum (UG570 tables 9-20/9-21). -/
inductive FarBlockType where
  | CLB_IO_CLK
  | BRAM_CONTENT
  | RSVD_2
  | RSVD_3
  | RSVD_4
  | RSVD_5
  | RSVD_6
  | RSVD_7
deriving DecidableEq, Repr

/-- The integer value of a `FarBlockType` enum member. -/
def FarBlockType.toNat : FarBlockType → Nat
  | .CLB_IO_CLK => 0
  | .BRAM_CONTENT => 1
  | .RSVD_2 => 2
  | .RSVD_3 => 3
  | .RSVD_4 => 4
  | .RSVD_5 => 5
  | .RSVD_6 => 6
  | .RSVD_7 => 7

/-- Embeds the Python enum constructor `FarBlockType(n)`: `none` models the
`ValueError` raised on an out-of-range value. -/
def FarBlockType.ofNat? : Nat → Option FarBlockType
  | 0 => some .CLB_IO_CLK
  | 1 => some .BRAM_CONTENT
  | 2 => some .RSVD_2
  | 3 => some .RSVD_3
  | 4 => some .RSVD_4
  | 5 => some .RSVD_5
  | 6 => some .RSVD_6
  | 7 => some .RSVD_7
  | _ + 8 => none

theorem FarBlockType.ofNat_toNat (n : Nat) (h : n < 8) :
    ∃ bt : FarBlockType, FarBlockType.ofNat? n = some bt ∧ bt.toNat = n := by
  interval_cases n <;> exact ⟨_, rfl, rfl⟩

/-! ### frame.py: FrameAddressRegister -/

/-- Embeds `FrameAddressRegister`: the five sub-fields plus the architecture
spec the value carries. -/
structure FrameAddressRegister where
  reserved : Nat
  block_type : FarBlockType
  row_addr : Nat
  col_addr : Nat
  minor_addr : Nat
  spec : ArchSpec
deriving DecidableEq, Repr

namespace FrameAddressRegister

/-- Length of the Python binary string `f"{v:0>{w}b}"`: the binary digits of
`v` left-padded with zeros to at least `w` characters (never truncated). -/
def pyFieldLen (w v : Nat) : Nat :=
  max w (if v = 0 then 1 else Nat.size v)

/-- Embeds `FrameAddressRegister.to_int` (via `to_bin`): the five fields are
rendered as zero-padded binary strings, concatenated, and read back as an
integer. -/
def to_int (f : FrameAddressRegister) : Nat :=
  let a1 := f.reserved
  let a2 := a1 * 2 ^ pyFieldLen f.spec.far_block_type_width f.block_type.toNat
    + f.block_type.toNat
  let a3 := a2 * 2 ^ pyFieldLen f.spec.far_row_address_width f.row_addr
    + f.row_addr
  let a4 := a3 * 2 ^ pyFieldLen f.spec.far_column_address_width f.col_addr
    + f.col_addr
  a4 * 2 ^ pyFieldLen f.spec.far_minor_address_width f.minor_addr
    + f.minor_addr

/-- Embeds `FrameAddressRegister.from_int`: extract the five sub-fields from
the integer using the architecture's bit indices.  `none` models the
`ValueError` of an invalid block-type value (unreachable for 3-bit fields). -/
def from_int (far : Nat) (spec : ArchSpec) : Option FrameAddressRegister :=
  match FarBlockType.ofNat?
      (bits far spec.far_block_type_idx_high spec.far_block_type_idx_low) with
  | none => none
  | some bt =>
    some { reserved := bits far spec.far_reserved_idx_high spec.far_reserved_idx_low
           block_type := bt
           row_addr := bits far spec.far_row_address_idx_high spec.far_row_address_idx_low
           col_addr := bits far spec.far_column_address_idx_high spec.far_column_address_idx_low
           minor_addr := bits far spec.far_minor_address_idx_high spec.far_minor_address_idx_low
           spec := spec }

/-- Embeds `FrameAddressRegister.__eq__`: compares the five field tuples and
ignores the carried architecture spec. -/
def pyEq (a b : FrameAddressRegister) : Bool :=
  a.reserved == b.reserved && a.block_type == b.block_type
    && a.row_addr == b.row_addr && a.col_addr == b.col_addr
    && a.minor_addr == b.minor_addr

/-- Embeds the tuple hashed by `FrameAddressRegister.__hash__` (omitting the
constant `self.__class__` component): the architecture spec IS part of it. -/
def pyHashKey (f : FrameAddressRegister) :
    ArchSpec × Nat × FarBlockType × Nat × Nat × Nat :=
  (f.spec, f.reserved, f.block_type, f.row_addr, f.col_addr, f.minor_addr)

theorem pyFieldLen_eq (w v : Nat) (hw : 1 ≤ w) (hv : v < 2 ^ w) :
    pyFieldLen w v = w := by
  unfold pyFieldLen
  by_cases h0 : v = 0
  · simp [h0, Nat.max_eq_left hw]
  · simp only [h0, if_false]
    exact Nat.max_eq_left (Nat.size_le.mpr hv)

theorem from_int_to_int_us (v : Nat) (hv : v < 2 ^ 32) :
    ∃ f, from_int v UltraScaleSpec = some f ∧ f.to_int = v := by
  obtain ⟨bt, hbt, hbtv⟩ := FarBlockType.ofNat_toNat (bits v 25 23) (by
    have h := bits_lt v 25 23
    norm_num at h
    exact h)
  refine ⟨{ reserved := bits v 31 26, block_type := bt,
            row_addr := bits v 22 17, col_addr := bits v 16 7,
            minor_addr := bits v 6 0, spec := UltraScaleSpec }, ?_, ?_⟩
  · unfold from_int
    simp only [UltraScaleSpec]
    rw [hbt]
  · unfold to_int
    simp only [UltraScaleSpec, ArchSpec.far_block_type_width,
      ArchSpec.far_row_address_width, ArchSpec.far_column_address_width,
      ArchSpec.far_minor_address_width, width]
    norm_num
    rw [pyFieldLen_eq 3 _ (by norm_num) (by
        rw [hbtv]; have h := bits_lt v 25 23; norm_num at h; exact h),
      pyFieldLen_eq 6 _ (by norm_num) (by
        have h := bits_lt v 22 17; norm_num at h; exact h),
      pyFieldLen_eq 10 _ (by norm_num) (by
        have h := bits_lt v 16 7; norm_num at h; exact h),
      pyFieldLen_eq 7 _ (by norm_num) (by
        have h := bits_lt v 6 0; norm_num at h; exact h)]
    rw [hbtv]
    simp only [bits_eq_div_mod]
    norm_num
    omega

theorem from_int_to_int_usp (v : Nat) (hv : v < 2 ^ 32) :
    ∃ f, from_int v UltraScalePlusSpec = some f ∧ f.to_int = v := by
  obtain ⟨bt, hbt, hbtv⟩ := FarBlockType.ofNat_toNat (bits v 26 24) (by
    have h := bits_lt v 26 24
    norm_num at h
    exact h)
  refine ⟨{ reserved := bits v 31 27, block_type := bt,
            row_addr := bits v 23 18, col_addr := bits v 17 8,
            minor_addr := bits v 7 0, spec := UltraScalePlusSpec }, ?_, ?_⟩
  · unfold from_int
    simp only [UltraScalePlusSpec]
    rw [hbt]
  · unfold to_int
    simp only [UltraScalePlusSpec, ArchSpec.far_block_type_width,
      ArchSpec.far_row_address_width, ArchSpec.far_column_address_width,
      ArchSpec.far_minor_address_width, width]
    norm_num
    rw [pyFieldLen_eq 3 _ (by norm_num) (by
        rw [hbtv]; have h := bits_lt v 26 24; norm_num at h; exact h),
      pyFieldLen_eq 6 _ (by norm_num) (by
        have h := bits_lt v 23 18; norm_num at h; exact h),
      pyFieldLen_eq 10 _ (by norm_num) (by
        have h := bits_lt v 17 8; norm_num at h; exact h),
      pyFieldLen_eq 8 _ (by norm_num) (by
        have h := bits_lt v 7 0; norm_num at h; exact h)]
    rw [hbtv]
    simp only [bits_eq_div_mod]
    norm_num
    omega

end FrameAddressRegister

set_option maxRecDepth 4000 in
/-- Claim C1 as stated is false at its own concrete input: decoding
`0x00e00000` under ULTRASCALE yields `row_addr = 48` (bits 22:17 of the
value), not `row_addr = 3` as the claim asserts. -/
theorem c1_far_decode_counterexample :
    (FrameAddressRegister.from_int 0x00e00000 UltraScaleSpec).map
        FrameAddressRegister.row_addr = some 48 ∧
    (FrameAddressRegister.from_int 0x00e00000 UltraScaleSpec).map
        FrameAddressRegister.row_addr ≠ some 3 := by
  constructor
  · decide
  · decide

set_option maxRecDepth 4000 in
/-- Claim C1 (amended): for either architecture spec and every 32-bit `v`,
`from_int(v, spec)` succeeds and `to_int()` of the result returns `v` exactly
(all five sub-fields, reserved bits included, are preserved); concretely, for
ULTRASCALE, `from_int(0x00e00000)` yields `reserved = 0`,
`block_type = BRAM_CONTENT`, `row_addr = 48` (not 3 as the original claim
said), `col_addr = 0`, `minor_addr = 0`, and `to_int()` returns
`0x00e00000`. -/
theorem c1_far_roundtrip (s : ArchSpec) (v : Nat)
    (hs : s = UltraScaleSpec ∨ s = UltraScalePlusSpec) (hv : v < 2 ^ 32) :
    (∃ f, FrameAddressRegister.from_int v s = some f ∧ f.to_int = v) ∧
    FrameAddressRegister.from_int 0x00e00000 UltraScaleSpec =
      some { reserved := 0, block_type := .BRAM_CONTENT, row_addr := 48,
             col_addr := 0, minor_addr := 0, spec := UltraScaleSpec } ∧
    (FrameAddressRegister.from_int 0x00e00000 UltraScaleSpec).map
      FrameAddressRegister.to_int = some 0x00e00000 := by
  refine ⟨?_, by decide, ?_⟩
  · rcases hs with rfl | rfl
    · exact FrameAddressRegister.from_int_to_int_us v hv
    · exact FrameAddressRegister.from_int_to_int_usp v hv
  · obtain ⟨f, hf, hft⟩ :=
      FrameAddressRegister.from_int_to_int_us 0x00e00000 (by norm_num)
    rw [hf]
    simp only [Option.map]
    rw [hft]

/-- Witness for C1: instantiates the round-trip at `v = 0x00e00000` on
ULTRASCALE. -/
theorem c1_far_roundtrip_witness :
    ∃ f, FrameAddressRegister.from_int 0x00e00000 UltraScaleSpec = some f ∧
      f.to_int = 0x00e00000 :=
  (c1_far_roundtrip UltraScaleSpec 0x00e00000 (Or.inl rfl) (by norm_num)).1

/-- Claim C10: `__eq__` of two FARs depends only on the five fields and
ignores the architecture spec, while the hashed tuple additionally includes
the spec; two FARs with identical fields but different architectures compare
equal yet hash over different tuples, so equality and hashing are not
mutually consistent. -/
theorem c10_eq_ignores_spec_hash_does_not :
    (∀ a b : FrameAddressRegister,
      FrameAddressRegister.pyEq a b = true ↔
        (a.reserved = b.reserved ∧ a.block_type = b.block_type ∧
         a.row_addr = b.row_addr ∧ a.col_addr = b.col_addr ∧
         a.minor_addr = b.minor_addr)) ∧
    (FrameAddressRegister.pyEq
        ⟨0, .CLB_IO_CLK, 0, 0, 0, UltraScaleSpec⟩
        ⟨0, .CLB_IO_CLK, 0, 0, 0, UltraScalePlusSpec⟩ = true ∧
     FrameAddressRegister.pyHashKey ⟨0, .CLB_IO_CLK, 0, 0, 0, UltraScaleSpec⟩ ≠
       FrameAddressRegister.pyHashKey
         ⟨0, .CLB_IO_CLK, 0, 0, 0, UltraScalePlusSpec⟩) := by
  refine ⟨fun a b => ?_, by decide, by decide⟩
  unfold FrameAddressRegister.pyEq
  simp [Bool.and_eq_true, beq_iff_eq, and_assoc]

/-! ### frame.py: ConfigFrame -/

/-- Embeds `ConfigFrame`: a single configuration frame with its byte offset,
word vector, FAR and architecture spec. -/
structure ConfigFrame where
  byte_ofst : Nat
  words : List Nat
  far : FrameAddressRegister
  spec : ArchSpec
deriving DecidableEq, Repr

/-- Embeds the `ConfigFrame.__init__` size assertion: construction fails
unless the word vector has exactly `frame_size_words` words. -/
def ConfigFrame.mk? (byte_ofst : Nat) (words : List Nat)
    (far : FrameAddressRegister) (spec : ArchSpec) : Option ConfigFrame :=
  if words.length = spec.frame_size_words then
    some ⟨byte_ofst, words, far, spec⟩
  else
    none

/-- Embeds `ConfigFrame.bit`: asserts the offset is within
`[0, frame_size_words * 32)` (`none` models the assertion failure), then
extracts bit `bit_ofst % 32` of word `bit_ofst / 32`.  The word size
`num_bits_word = itemsize * 8 = 32` for the `>u4` dtype. -/
def ConfigFrame.bit (c : ConfigFrame) (bit_ofst : Nat) : Option Nat :=
  let num_bits_word := 32
  let max_frame_ofst := c.spec.frame_size_words * num_bits_word
  if bit_ofst < max_frame_ofst then
    match c.words[bit_ofst / num_bits_word]? with
    | some w => some (bits w (bit_ofst % num_bits_word) (bit_ofst % num_bits_word))
    | none => none
  else
    none

/-- Claim C9: for every well-formed ConfigFrame and every offset
`o < 32 * frame_size_words`, `bit(o)` succeeds and returns exactly bit
`o % 32` of word `o / 32`, a value in `{0, 1}`; for any offset at or beyond
`32 * frame_size_words` the call fails. -/
theorem c9_config_frame_bit (c : ConfigFrame) (o : Nat)
    (hwf : c.words.length = c.spec.frame_size_words) :
    (o < 32 * c.spec.frame_size_words →
      ∃ w, c.words[o / 32]? = some w ∧
        c.bit o = some (w / 2 ^ (o % 32) % 2) ∧ w / 2 ^ (o % 32) % 2 ≤ 1) ∧
    (32 * c.spec.frame_size_words ≤ o → c.bit o = none) := by
  constructor
  · intro ho
    have hidx : o / 32 < c.words.length := by
      rw [hwf]
      omega
    refine ⟨c.words[o / 32], List.getElem?_eq_getElem hidx, ?_, by omega⟩
    unfold ConfigFrame.bit
    simp only [List.getElem?_eq_getElem hidx]
    rw [if_pos (by omega)]
    rw [bits_eq_div_mod]
    simp
  · intro ho
    unfold ConfigFrame.bit
    rw [if_neg (by omega)]

/-- Witness for C9: a concrete frame on a tiny spec, evaluated at an
in-range and an out-of-range offset. -/
theorem c9_config_frame_bit_witness :
    ∃ w, ([6, 0] : List Nat)[33 / 32]? = some w ∧
      (ConfigFrame.bit ⟨0, [6, 0],
          ⟨0, .CLB_IO_CLK, 0, 0, 0, UltraScaleSpec⟩,
          { UltraScaleSpec with frame_size_words := 2 }⟩ 33) =
        some (w / 2 ^ (33 % 32) % 2) ∧ w / 2 ^ (33 % 32) % 2 ≤ 1 :=
  (c9_config_frame_bit
    ⟨0, [6, 0], ⟨0, .CLB_IO_CLK, 0, 0, 0, UltraScaleSpec⟩,
      { UltraScaleSpec with frame_size_words := 2 }⟩ 33 (by decide)).1
    (by decide)

/-! ### frame.py: FrameAddressIncrementer -/

/-- Embeds the cached per-IDCODE state of `FrameAddressIncrementer`:
`std_minors idcode row` is the list of minor counts per standard column major,
`bram_minors` the same for BRAM-content columns, and `std_num_rows idcode` is
the number of rows recorded for the IDCODE
(`len(self.num_minors_per_std_colMajor[idcode])`). -/
structure FrameAddressIncrementer where
  std_minors : Nat → Nat → List Nat
  bram_minors : Nat → Nat → List Nat
  std_num_rows : Nat → Nat

namespace FrameAddressIncrementer

/-- Embeds `FrameAddressIncrementer.get_colMajors_numMinors_count`: returns
(number of column majors in the FAR's row, number of minors in the FAR's
column).  `none` models the `assert False` on an unexpected block type and the
`IndexError` of an out-of-range column. -/
def get_colMajors_numMinors_count (inc : FrameAddressIncrementer)
    (idcode : Nat) (far : FrameAddressRegister) : Option (Nat × Nat) :=
  match far.block_type with
  | .CLB_IO_CLK =>
    match (inc.std_minors idcode far.row_addr)[far.col_addr]? with
    | some m => some ((inc.std_minors idcode far.row_addr).length, m)
    | none => none
  | .BRAM_CONTENT =>
    match (inc.bram_minors idcode far.row_addr)[far.col_addr]? with
    | some m => some ((inc.bram_minors idcode far.row_addr).length, m)
    | none => none
  | _ => none

/-- Embeds `FrameAddressIncrementer.increment`: minor is incremented first and
carries over to column major, row major and block type, in that order; the
reserved field is kept unchanged. -/
def increment (inc : FrameAddressIncrementer) (idcode : Nat)
    (far : FrameAddressRegister) : Option FrameAddressRegister :=
  match inc.get_colMajors_numMinors_count idcode far with
  | none => none
  | some (num_col_majors, num_minors_in_col_major) =>
    let mc1 : Nat × Nat :=
      if far.minor_addr + 1 = num_minors_in_col_major then (0, far.col_addr + 1)
      else (far.minor_addr + 1, far.col_addr)
    let cr1 : Nat × Nat :=
      if mc1.2 = num_col_majors then (0, far.row_addr + 1)
      else (mc1.2, far.row_addr)
    let rb1 : Nat × FarBlockType :=
      if cr1.2 = inc.std_num_rows idcode then
        (0, if far.block_type = FarBlockType.CLB_IO_CLK then
              FarBlockType.BRAM_CONTENT
            else FarBlockType.CLB_IO_CLK)
      else (cr1.2, far.block_type)
    some { reserved := far.reserved, block_type := rb1.2, row_addr := rb1.1,
           col_addr := cr1.1, minor_addr := mc1.1, spec := far.spec }

/-- Embeds `FrameAddressIncrementer.is_last_far_of_row`: true iff the FAR sits
in the last column major of its row and at the last minor of that column. -/
def is_last_far_of_row (inc : FrameAddressIncrementer) (idcode : Nat)
    (far : FrameAddressRegister) : Option Bool :=
  match inc.get_colMajors_numMinors_count idcode far with
  | none => none
  | some (num_col_majors, num_minors_in_col_major) =>
    some (decide (far.col_addr = num_col_majors - 1) &&
      decide (far.minor_addr = num_minors_in_col_major - 1))

end FrameAddressIncrementer

/-- The device of claim C2's concrete example: every row has column minor
counts `[4, 12, 58]`, there are 2 rows, and a second (BRAM) block type
exists. -/
def c2ExampleIncrementer : FrameAddressIncrementer :=
  { std_minors := fun _ r => if r < 2 then [4, 12, 58] else []
    bram_minors := fun _ r => if r < 2 then [10] else []
    std_num_rows := fun _ => 2 }

/-- Claim C2: for every incrementer state, IDCODE and FAR whose block type is
CLB_IO_CLK or BRAM_CONTENT (so that the column lookup succeeds) and whose row
index is within the device's rows, `increment` adds 1 to `minor_addr` and
carries minor → column → row → block type in that order, toggling the block
type between CLB_IO_CLK and BRAM_CONTENT at the end; the reserved field (and
the carried spec) of the result equals that of the input.  Concretely, on a
device with per-row minor counts `[4, 12, 58]` and 2 rows,
`(CLB_IO_CLK, row=0, col=2, minor=57)` increments to
`(CLB_IO_CLK, row=1, col=0, minor=0)` and
`(CLB_IO_CLK, row=1, col=2, minor=57)` increments to
`(BRAM_CONTENT, row=0, col=0, minor=0)`. -/
theorem c2_far_increment (inc : FrameAddressIncrementer) (idcode : Nat)
    (far : FrameAddressRegister) (nc nm : Nat)
    (hcm : inc.get_colMajors_numMinors_count idcode far = some (nc, nm))
    (hrow : far.row_addr < inc.std_num_rows idcode) :
    (far.minor_addr + 1 ≠ nm →
      inc.increment idcode far =
        some { far with minor_addr := far.minor_addr + 1 }) ∧
    (far.minor_addr + 1 = nm → far.col_addr + 1 ≠ nc →
      inc.increment idcode far =
        some { far with minor_addr := 0, col_addr := far.col_addr + 1 }) ∧
    (far.minor_addr + 1 = nm → far.col_addr + 1 = nc →
      far.row_addr + 1 ≠ inc.std_num_rows idcode →
      inc.increment idcode far =
        some { far with minor_addr := 0, col_addr := 0,
                        row_addr := far.row_addr + 1 }) ∧
    (far.minor_addr + 1 = nm → far.col_addr + 1 = nc →
      far.row_addr + 1 = inc.std_num_rows idcode →
      inc.increment idcode far =
        some { far with minor_addr := 0, col_addr := 0, row_addr := 0,
                        block_type :=
                          if far.block_type = FarBlockType.CLB_IO_CLK then
                            FarBlockType.BRAM_CONTENT
                          else FarBlockType.CLB_IO_CLK }) ∧
    (∀ far2, inc.increment idcode far = some far2 →
      far2.reserved = far.reserved ∧ far2.spec = far.spec) ∧
    (c2ExampleIncrementer.increment 7
        ⟨0, .CLB_IO_CLK, 0, 2, 57, UltraScalePlusSpec⟩ =
      some ⟨0, .CLB_IO_CLK, 1, 0, 0, UltraScalePlusSpec⟩) ∧
    (c2ExampleIncrementer.increment 7
        ⟨0, .CLB_IO_CLK, 1, 2, 57, UltraScalePlusSpec⟩ =
      some ⟨0, .BRAM_CONTENT, 0, 0, 0, UltraScalePlusSpec⟩) := by
  have hcol : far.col_addr < nc := by
    unfold FrameAddressIncrementer.get_colMajors_numMinors_count at hcm
    cases hbt : far.block_type <;> rw [hbt] at hcm <;> try simp at hcm
    case CLB_IO_CLK =>
      cases hx : (inc.std_minors idcode far.row_addr)[far.col_addr]? <;>
        rw [hx] at hcm <;> simp at hcm
      rw [← hcm.1]
      exact (List.getElem?_eq_some.mp hx).1
    case BRAM_CONTENT =>
      cases hx : (inc.bram_minors idcode far.row_addr)[far.col_addr]? <;>
        rw [hx] at hcm <;> simp at hcm
      rw [← hcm.1]
      exact (List.getElem?_eq_some.mp hx).1
  refine ⟨?_, ?_, ?_, ?_, ?_, by decide, by decide⟩
  · intro h1
    unfold FrameAddressIncrementer.increment
    rw [hcm]
    simp only [if_neg h1]
    rw [if_neg (show ¬(far.col_addr = nc) by omega),
      if_neg (show ¬(far.row_addr = inc.std_num_rows idcode) by omega)]
  · intro h1 h2
    unfold FrameAddressIncrementer.increment
    rw [hcm]
    simp only [if_pos h1]
    rw [if_neg h2,
      if_neg (show ¬(far.row_addr = inc.std_num_rows idcode) by omega)]
  · intro h1 h2 h3
    unfold FrameAddressIncrementer.increment
    rw [hcm]
    simp only [if_pos h1]
    rw [if_pos h2, if_neg h3]
  · intro h1 h2 h3
    unfold FrameAddressIncrementer.increment
    rw [hcm]
    simp only [if_pos h1]
    rw [if_pos h2, if_pos h3]
  · intro far2 hfar2
    unfold FrameAddressIncrementer.increment at hfar2
    rw [hcm] at hfar2
    simp only [Option.some_inj] at hfar2
    subst hfar2
    exact ⟨rfl, rfl⟩

/-- Witness for C2: the first concrete example, derived by applying the
increment theorem on the example device at
`(CLB_IO_CLK, row=0, col=2, minor=57)`. -/
theorem c2_far_increment_witness :
    c2ExampleIncrementer.increment 7
        ⟨0, .CLB_IO_CLK, 0, 2, 57, UltraScalePlusSpec⟩ =
      some ⟨0, .CLB_IO_CLK, 1, 0, 0, UltraScalePlusSpec⟩ := by
  have h := c2_far_increment c2ExampleIncrementer 7
    ⟨0, .CLB_IO_CLK, 0, 2, 57, UltraScalePlusSpec⟩ 3 58 (by decide) (by decide)
  exact h.2.2.1 (by decide) (by decide) (by decide)

/-! ### packet_spec.py -/

/-- Embeds `packet_spec.Type` (UG570 tables 9-16/9-18). -/
inductive PktType where
  | TYPE1
  | TYPE2
deriving DecidableEq, Repr

/-- Embeds `packet_spec.Opcode` (UG570 table 9-17). -/
inductive Opcode where
  | NOOP
  | READ
  | WRITE
  | RSVD
deriving DecidableEq, Repr

/-- Embeds the Python enum constructor `Opcode(n)`. -/
def Opcode.ofNat? : Nat → Option Opcode
  | 0 => some .NOOP
  | 1 => some .READ
  | 2 => some .WRITE
  | 3 => some .RSVD
  | _ + 4 => none

/-- Registers (`packet_spec.Register`) are modelled by their 5-bit enum value;
the Python enum accepts exactly the values `0..31`. -/
def REG_CRC : Nat := 0
def REG_FAR : Nat := 1
def REG_FDRI : Nat := 2
def REG_CMD : Nat := 4
def REG_IDCODE : Nat := 12
def REG_RSVD_30 : Nat := 30

/-- Embeds `packet_spec.Command.DESYNC`. -/
def CMD_DESYNC : Nat := 13

/-! ### packet.py -/

/-- Embeds `Packet`: decoded packet header fields plus the payload (a vector
of 32-bit big-endian words) and the byte offset of the packet header. -/
structure Packet where
  hdr_tpe : PktType
  opcode : Opcode
  reg_addr : Nat
  reserved : Option Nat
  word_count : Nat
  data : List Nat
  byte_ofst : Nat
deriving DecidableEq, Repr

/-- Embeds `Packet.data_size_words`. -/
def Packet.data_size_words (p : Packet) : Nat :=
  p.data.length

/-- Embeds `Packet.packet_size_bytes`: payload bytes plus the 4-byte header. -/
def Packet.packet_size_bytes (p : Packet) : Nat :=
  p.data.length * 4 + 4

/-- Embeds `Packet.packet_size_words`. -/
def Packet.packet_size_words (p : Packet) : Nat :=
  p.packet_size_bytes / 4

/-- Failure modes of the packet codec: Python exceptions in the source. -/
inductive PktErr where
  | indexError
  | valueError
  | orphanType2
  | assertionError
  | typeError
  | unboundLocalError
deriving DecidableEq, Repr

/-- Embeds `Packet.create_packet`: decodes the word at `word_ofst` as a packet
header.  `ok none` models the `None` returned for padding words; `error`
models the exceptions (out-of-range word index, invalid enum value, orphan
type-2 packet).  Payload slices truncate at the end of the buffer exactly as
Python/numpy slicing does. -/
def create_packet (word_bitstream : List Nat) (word_ofst : Nat)
    (packet_byte_ofst : Nat) (prev_reg_addr : Option Nat) :
    Except PktErr (Option Packet) :=
  match word_bitstream[word_ofst]? with
  | none => .error .indexError
  | some packet_hdr =>
    let hdr_tpe_int := bits packet_hdr 31 29
    if hdr_tpe_int = 1 then
      match Opcode.ofNat? (bits packet_hdr 28 27) with
      | none => .error .valueError
      | some opcode =>
        let reg_val := bits packet_hdr 26 13
        if reg_val < 32 then
          let word_count := bits packet_hdr 10 0
          let data := (word_bitstream.drop (word_ofst + 1)).take word_count
          .ok (some { hdr_tpe := .TYPE1, opcode := opcode, reg_addr := reg_val
                      reserved := some (bits packet_hdr 12 11)
                      word_count := word_count, data := data
                      byte_ofst := packet_byte_ofst })
        else
          .error .valueError
    else if hdr_tpe_int = 2 then
      match Opcode.ofNat? (bits packet_hdr 28 27) with
      | none => .error .valueError
      | some opcode =>
        let word_count := bits packet_hdr 26 0
        match prev_reg_addr with
        | none => .error .orphanType2
        | some prev =>
          let is_sinkhole_write := opcode = Opcode.WRITE ∧ prev = REG_RSVD_30
          let data := if is_sinkhole_write then ([] : List Nat)
            else (word_bitstream.drop (word_ofst + 1)).take word_count
          .ok (some { hdr_tpe := .TYPE2, opcode := opcode, reg_addr := prev
                      reserved := none, word_count := word_count, data := data
                      byte_ofst := packet_byte_ofst })
    else
      .ok none

/-- Embeds `packet.is_noop_pkt`. -/
def is_noop_pkt (p : Packet) : Bool :=
  p.opcode == Opcode.NOOP

/-- Embeds `packet.is_reg_write_pkt`. -/
def is_reg_write_pkt (p : Packet) (reg_addr : Nat) : Bool :=
  p.opcode == Opcode.WRITE && p.reg_addr == reg_addr

/-- Embeds `packet.is_reg_cmd_write_pkt`. -/
def is_reg_cmd_write_pkt (p : Packet) (cmd : Nat) : Bool :=
  is_reg_write_pkt p REG_CMD &&
    (p.data.length == 1 && p.data.headD 0 == cmd)

/-- Embeds `packet.is_empty_pkg`. -/
def is_empty_pkg (p : Packet) : Bool :=
  p.data_size_words == 0

theorem create_packet_ok_lt (word_bitstream : List Nat) (word_ofst : Nat)
    (packet_byte_ofst : Nat) (prev_reg_addr : Option Nat) (r : Option Packet)
    (h : create_packet word_bitstream word_ofst packet_byte_ofst prev_reg_addr
      = .ok r) : word_ofst < word_bitstream.length := by
  unfold create_packet at h
  cases hx : word_bitstream[word_ofst]? with
  | none => rw [hx] at h; exact absurd h (by simp)
  | some w => exact (List.getElem?_eq_some.mp hx).1

theorem packet_size_words_eq (p : Packet) :
    p.packet_size_words = p.data.length + 1 := by
  unfold Packet.packet_size_words Packet.packet_size_bytes
  omega

/-! ### bitstream.py: packet decoding -/

/-- Embeds the while loop of `Bitstream.__decode_packets_until_next_boundary`:
decodes packets from `word_ofst` until a DESYNC command packet is found,
skipping padding words, dropping NOOPs, and tracking the register of the most
recent type-1 packet for type-2 packets.  Byte offsets are
`word_ofst * itemsize` with `itemsize = 4`. -/
def decode_packets_loop (word_bitstream : List Nat) (word_ofst : Nat)
    (current_reg_addr : Option Nat) : Except PktErr (List Packet) :=
  match h : create_packet word_bitstream word_ofst (word_ofst * 4)
      current_reg_addr with
  | .error e => .error e
  | .ok none => decode_packets_loop word_bitstream (word_ofst + 1)
      current_reg_addr
  | .ok (some packet) =>
    let new_reg_addr := if packet.hdr_tpe = PktType.TYPE1 then
        some packet.reg_addr
      else current_reg_addr
    if is_reg_cmd_write_pkt packet CMD_DESYNC then
      .ok (if is_noop_pkt packet then [] else [packet])
    else
      match decode_packets_loop word_bitstream
          (word_ofst + packet.packet_size_words) new_reg_addr with
      | .error e => .error e
      | .ok rest => .ok (if is_noop_pkt packet then rest else packet :: rest)
termination_by word_bitstream.length - word_ofst
decreasing_by
  · have := create_packet_ok_lt _ _ _ _ _ h
    omega
  · have := create_packet_ok_lt _ _ _ _ _ h
    rw [packet_size_words_eq]
    omega

/-- Embeds `Bitstream.__decode_packets_until_next_boundary` proper: the loop
started at word offset 0 with no implicit register. -/
def decode_packets_until_next_boundary (word_bitstream : List Nat) :
    Except PktErr (List Packet) :=
  decode_packets_loop word_bitstream 0 none

/-- Embeds `Bitstream.__find_sync_word_ofsts`: byte offsets of every 4-byte
occurrence of the sync word `AA 99 55 66` found by a 4-byte sliding window
(the window view covers start positions `0 .. len - 4`). -/
def find_sync_word_ofsts (byte_bitstream : List Nat) : List Nat :=
  (List.range (byte_bitstream.length - 3)).filter fun i =>
    byte_bitstream[i]? = some 0xaa ∧ byte_bitstream[i + 1]? = some 0x99 ∧
    byte_bitstream[i + 2]? = some 0x55 ∧ byte_bitstream[i + 3]? = some 0x66

/-- Embeds `Bitstream.__find_next_sync_word`: the smallest recorded sync-word
offset that is at least `min_byte_ofst`, or `none` if no such offset exists. -/
def find_next_sync_word (sync_word_byte_ofsts : List Nat)
    (min_byte_ofst : Nat) : Option Nat :=
  let candidate_sync_word_byte_ofsts :=
    sync_word_byte_ofsts.filter fun ofst => min_byte_ofst ≤ ofst
  if candidate_sync_word_byte_ofsts.length = 0 then
    none
  else
    candidate_sync_word_byte_ofsts.min?

theorem min?_nat_spec (l : List Nat) (a : Nat) (h : l.min? = some a) :
    a ∈ l ∧ ∀ b ∈ l, a ≤ b := by
  rw [List.min?_eq_some_iff] at h
  · exact h
  · exact fun x => Nat.le_refl x
  · exact fun x y => min_choice x y
  · exact fun a b c => Nat.le_min

theorem find_next_sync_word_some (l : List Nat) (m r : Nat)
    (h : find_next_sync_word l m = some r) :
    r ∈ l ∧ m ≤ r ∧ ∀ o ∈ l, m ≤ o → r ≤ o := by
  unfold find_next_sync_word at h
  simp only at h
  split at h
  · exact absurd h (by simp)
  · obtain ⟨hmem, hmin⟩ := min?_nat_spec _ _ h
    rw [List.mem_filter] at hmem
    refine ⟨hmem.1, of_decide_eq_true hmem.2, ?_⟩
    intro o ho hmo
    exact hmin o (List.mem_filter.mpr ⟨ho, decide_eq_true hmo⟩)

theorem find_next_sync_word_none (l : List Nat) (m : Nat) :
    find_next_sync_word l m = none ↔ ∀ o ∈ l, o < m := by
  unfold find_next_sync_word
  simp only []
  constructor
  · intro h o ho
    split at h
    · rename_i hlen
      by_contra hno
      have : o ∈ l.filter fun ofst => decide (m ≤ ofst) :=
        List.mem_filter.mpr ⟨ho, decide_eq_true (Nat.le_of_not_lt hno)⟩
      rw [List.length_eq_zero.mp hlen] at this
      exact absurd this (List.not_mem_nil o)
    · rename_i hlen
      cases hm : (l.filter fun ofst => decide (m ≤ ofst)).min? with
      | none =>
        rw [List.min?_eq_none_iff] at hm
        exact absurd (List.length_eq_zero.mpr hm) hlen
      | some a => rw [hm] at h; exact absurd h (by simp)
  · intro h
    have hempty : l.filter (fun ofst => decide (m ≤ ofst)) = [] := by
      rw [List.filter_eq_nil]
      intro o ho
      simp only [decide_eq_true_eq]
      exact Nat.not_le.mpr (h o ho)
    rw [if_pos (by rw [hempty]; rfl)]

/-- Big-endian 32-bit word view of a byte list (numpy `.view(">u4")` of the
suffix starting at a sync offset). -/
def bytesToWords : List Nat → List Nat
  | b0 :: b1 :: b2 :: b3 :: rest =>
    (b0 * 2 ^ 24 + b1 * 2 ^ 16 + b2 * 2 ^ 8 + b3) :: bytesToWords rest
  | _ => []

/-- Embeds the body of the `while sync_words_exist` loop of
`Bitstream.__decode_all_packets`: decode the section rooted at
`current_sync_word_byte_ofst`, shift the section packets to absolute offsets,
then continue at the first recorded sync offset located at or past the end of
the section's boundary packet; stop when no such offset exists.  The empty
`sub_packets` case models the `sub_packets[-1]` IndexError. -/
def decode_sections (byte_bitstream : List Nat)
    (all_sync_word_byte_ofsts : List Nat)
    (current_sync_word_byte_ofst : Nat)
    (hmem : current_sync_word_byte_ofst ∈ all_sync_word_byte_ofsts) :
    Except PktErr (List Packet) :=
  match decode_packets_until_next_boundary
      (bytesToWords (byte_bitstream.drop current_sync_word_byte_ofst)) with
  | .error e => .error e
  | .ok sub_packets =>
    let shifted := sub_packets.map fun p =>
      { p with byte_ofst := p.byte_ofst + current_sync_word_byte_ofst }
    match shifted.getLast? with
    | none => .error .indexError
    | some boundary_pkt =>
      let after_boundary_byte_ofst :=
        boundary_pkt.byte_ofst + boundary_pkt.packet_size_bytes
      match hnext : find_next_sync_word all_sync_word_byte_ofsts
          after_boundary_byte_ofst with
      | none => .ok shifted
      | some next_ofst =>
        if hgt : current_sync_word_byte_ofst < next_ofst then
          match decode_sections byte_bitstream all_sync_word_byte_ofsts
              next_ofst (find_next_sync_word_some _ _ _ hnext).1 with
          | .error e => .error e
          | .ok rest => .ok (shifted ++ rest)
        else
          -- Unreachable in the source: the next sync offset always lies past
          -- the boundary packet, which itself starts at or past the current
          -- sync offset.  Modelled as a fuel-style guard for termination.
          .error .assertionError
termination_by
  (all_sync_word_byte_ofsts.filter
    fun o => current_sync_word_byte_ofst ≤ o).length
decreasing_by
  have hcur : current_sync_word_byte_ofst ∈
      all_sync_word_byte_ofsts.filter
        (fun o => current_sync_word_byte_ofst ≤ o) := by
    rw [List.mem_filter]
    exact ⟨hmem, by simp⟩
  have hcur2 : current_sync_word_byte_ofst ∉
      all_sync_word_byte_ofsts.filter (fun o => next_ofst ≤ o) := by
    rw [List.mem_filter]
    intro hc
    have := of_decide_eq_true hc.2
    omega
  have hsubl : List.Sublist
      (all_sync_word_byte_ofsts.filter (fun o => next_ofst ≤ o))
      (all_sync_word_byte_ofsts.filter
        (fun o => current_sync_word_byte_ofst ≤ o)) := by
    have heq : all_sync_word_byte_ofsts.filter (fun o => next_ofst ≤ o) =
        (all_sync_word_byte_ofsts.filter
          (fun o => current_sync_word_byte_ofst ≤ o)).filter
            (fun o => decide (next_ofst ≤ o)) := by
      rw [List.filter_filter]
      apply List.filter_congr
      intro x hx
      rcases le_or_lt next_ofst x with hc | hc
      · simp [hc, Nat.le_of_lt (Nat.lt_of_lt_of_le hgt hc)]
      · simp [Nat.not_le.mpr hc]
    rw [heq]
    exact List.filter_sublist _
  rcases Nat.eq_or_lt_of_le hsubl.length_le with heq | hlt
  · exact absurd (hsubl.eq_of_length heq ▸ hcur) hcur2
  · exact hlt

/-- Embeds `Bitstream.__decode_all_packets`: find all sync-word offsets
(asserting at least one exists), then decode DESYNC-delimited sections
starting from the first sync offset. -/
def decode_all_packets (byte_bitstream : List Nat) :
    Except PktErr (List Packet) :=
  match find_sync_word_ofsts byte_bitstream with
  | [] => .error .assertionError
  | o :: rest =>
    decode_sections byte_bitstream (o :: rest) o (List.mem_cons_self o rest)

/-- Claim C4: after a section ends with its DESYNC boundary packet, decoding
resumes at the smallest recorded sync offset that is at least the byte offset
just past the boundary packet; a sync-word occurrence at an earlier offset is
never the resumption point; and if no sync offset at or past the boundary
exists, decoding stops with the packets decoded so far. -/
theorem c4_next_section_sync :
    (∀ (l : List Nat) (m r : Nat), find_next_sync_word l m = some r →
      r ∈ l ∧ m ≤ r ∧ (∀ o ∈ l, m ≤ o → r ≤ o) ∧
        ∀ o ∈ l, o < m → o ≠ r) ∧
    (∀ (l : List Nat) (m : Nat),
      find_next_sync_word l m = none ↔ ∀ o ∈ l, o < m) ∧
    (∀ (byte_bitstream all : List Nat) (cur : Nat) (hmem : cur ∈ all)
        (sub_packets : List Packet) (boundary_pkt : Packet),
      decode_packets_until_next_boundary
          (bytesToWords (byte_bitstream.drop cur)) = .ok sub_packets →
      (sub_packets.map fun p =>
        ({ p with byte_ofst := p.byte_ofst + cur } : Packet)).getLast?
          = some boundary_pkt →
      (find_next_sync_word all
          (boundary_pkt.byte_ofst + boundary_pkt.packet_size_bytes) = none →
        decode_sections byte_bitstream all cur hmem =
          .ok (sub_packets.map fun p =>
            { p with byte_ofst := p.byte_ofst + cur })) ∧
      (∀ nxt (h2 : find_next_sync_word all
          (boundary_pkt.byte_ofst + boundary_pkt.packet_size_bytes)
            = some nxt), cur < nxt →
        decode_sections byte_bitstream all cur hmem =
          match decode_sections byte_bitstream all nxt
              (find_next_sync_word_some _ _ _ h2).1 with
          | .error e => .error e
          | .ok rest => .ok ((sub_packets.map fun p =>
              { p with byte_ofst := p.byte_ofst + cur }) ++ rest))) := by
  refine ⟨?_, fun l m => find_next_sync_word_none l m, ?_⟩
  · intro l m r h
    obtain ⟨h1, h2, h3⟩ := find_next_sync_word_some l m r h
    exact ⟨h1, h2, h3, fun o _ ho heq => absurd (heq ▸ h2) (Nat.not_le.mpr ho)⟩
  · intro byte_bitstream all cur hmem sub_packets boundary_pkt hdec hlast
    constructor
    · intro hnone
      rw [decode_sections, hdec]
      simp only [hlast]
      split
      · rfl
      · rename_i next_ofst hnext
        rw [hnone] at hnext
        cases hnext
    · intro nxt h2 hlt
      rw [decode_sections, hdec]
      simp only [hlast]
      split
      · rename_i hnext
        rw [h2] at hnext
        cases hnext
      · rename_i next_ofst hnext
        rw [h2] at hnext
        obtain rfl := Option.some.inj hnext
        rw [dif_pos hlt]

/-- Witness for C4: the sync offsets `[0, 8]` with a boundary ending at byte
offset 4 resume at offset 8, the smallest offset at least 4. -/
theorem c4_next_section_sync_witness :
    (8 : Nat) ∈ [0, 8] ∧ 4 ≤ 8 ∧ (∀ o ∈ [0, 8], 4 ≤ o → 8 ≤ o) ∧
      ∀ o ∈ ([0, 8] : List Nat), o < 4 → o ≠ 8 :=
  c4_next_section_sync.1 [0, 8] 4 8 (by decide)

/-- Claim C5 as stated is false: a decoded packet's payload can be shorter
than its header's word count even outside the sinkhole case, because Python
slicing truncates at the end of the buffer.  The two-word buffer
`[0x30008005, 0x0000000d]` (a TYPE1 WRITE to CMD claiming 5 payload words,
followed by a single word that happens to be DESYNC) decodes successfully to
one boundary packet whose `word_count` is 5 but whose payload has 1 word. -/
theorem c5_payload_counterexample :
    decode_packets_until_next_boundary [0x30008005, 0x0000000d] =
      .ok [{ hdr_tpe := .TYPE1, opcode := .WRITE, reg_addr := REG_CMD,
             reserved := some 0, word_count := 5, data := [0x0000000d],
             byte_ofst := 0 }] ∧
    (5 : Nat) ≠ 1 ∧ REG_CMD ≠ REG_RSVD_30 := by
  have h1 : create_packet [0x30008005, 0x0000000d] 0 (0 * 4) none =
      .ok (some { hdr_tpe := .TYPE1, opcode := .WRITE, reg_addr := REG_CMD,
                  reserved := some 0, word_count := 5, data := [0x0000000d],
                  byte_ofst := 0 }) := by
    rfl
  refine ⟨?_, by decide, by decide⟩
  rw [decode_packets_until_next_boundary, decode_packets_loop]
  split
  · rename_i e heq
    rw [h1] at heq
    cases heq
  · rename_i heq
    rw [h1] at heq
    cases heq
  · rename_i packet heq
    rw [h1] at heq
    obtain rfl := Option.some.inj (Except.ok.inj heq)
    rw [if_pos (by decide)]
    rfl

/-- Claim C5 (amended): for every packet produced by `create_packet`, the
payload length in words equals the header's word count provided the buffer
holds the full claimed payload (`word_ofst + 1 + word_count ≤ buffer
length`), with exactly one exception: a TYPE2 packet with opcode WRITE whose
inherited register is RSVD_30 (the sinkhole) carries a zero-word payload
regardless of its header's word count, and its `reg_addr` is RSVD_30.  (When
the buffer is too short, the payload is silently truncated — the original
claim's unconditional equality fails there, see the counterexample.) -/
theorem c5_payload_matches_word_count (word_bitstream : List Nat)
    (word_ofst packet_byte_ofst : Nat) (prev_reg_addr : Option Nat)
    (p : Packet)
    (h : create_packet word_bitstream word_ofst packet_byte_ofst prev_reg_addr
      = .ok (some p)) :
    (p.hdr_tpe = PktType.TYPE2 ∧ p.opcode = Opcode.WRITE ∧
        prev_reg_addr = some REG_RSVD_30 →
      p.data = [] ∧ p.reg_addr = REG_RSVD_30) ∧
    (¬(p.hdr_tpe = PktType.TYPE2 ∧ p.opcode = Opcode.WRITE ∧
        prev_reg_addr = some REG_RSVD_30) →
      word_ofst + 1 + p.word_count ≤ word_bitstream.length →
      p.data.length = p.word_count) := by
  unfold create_packet at h
  cases hw : word_bitstream[word_ofst]? with
  | none => rw [hw] at h; cases h
  | some packet_hdr =>
    rw [hw] at h
    simp only at h
    by_cases h1 : bits packet_hdr 31 29 = 1
    · rw [if_pos h1] at h
      cases hop : Opcode.ofNat? (bits packet_hdr 28 27) with
      | none => rw [hop] at h; cases h
      | some opcode =>
        rw [hop] at h
        simp only at h
        by_cases hreg : bits packet_hdr 26 13 < 32
        · rw [if_pos hreg] at h
          obtain rfl := Option.some.inj (Except.ok.inj h)
          refine ⟨fun hc => absurd hc.1 (by simp), fun _ hlen => ?_⟩
          dsimp only at hlen ⊢
          simp only [List.length_take, List.length_drop]
          omega
        · rw [if_neg hreg] at h
          cases h
    · rw [if_neg h1] at h
      by_cases h2 : bits packet_hdr 31 29 = 2
      · rw [if_pos h2] at h
        cases hop : Opcode.ofNat? (bits packet_hdr 28 27) with
        | none => rw [hop] at h; cases h
        | some opcode =>
          rw [hop] at h
          simp only at h
          cases prev_reg_addr with
          | none => cases h
          | some prev =>
            obtain rfl := Option.some.inj (Except.ok.inj h)
            by_cases hsink : opcode = Opcode.WRITE ∧ prev = REG_RSVD_30
            · refine ⟨fun _ => ⟨?_, hsink.2⟩, fun hc => absurd ?_ hc⟩
              · dsimp only
                rw [if_pos hsink]
              · exact ⟨rfl, hsink.1, by rw [hsink.2]⟩
            · refine ⟨fun hc => ?_, fun _ hlen => ?_⟩
              · refine absurd ⟨hc.2.1, ?_⟩ hsink
                exact Option.some.inj hc.2.2
              · dsimp only at hlen ⊢
                rw [if_neg hsink]
                simp only [List.length_take, List.length_drop]
                omega
      · rw [if_neg h2] at h
        cases h

/-- Witness for C5: a well-formed TYPE1 NOOP-free packet (`WRITE` of one word
to the FAR register) whose payload length matches its word count. -/
theorem c5_payload_matches_word_count_witness :
    (({ hdr_tpe := .TYPE1, opcode := .WRITE, reg_addr := REG_FAR,
        reserved := some 0, word_count := 1, data := [7],
        byte_ofst := 0 } : Packet).hdr_tpe = PktType.TYPE2 ∧
      ({ hdr_tpe := .TYPE1, opcode := .WRITE, reg_addr := REG_FAR,
         reserved := some 0, word_count := 1, data := [7],
         byte_ofst := 0 } : Packet).opcode = Opcode.WRITE ∧
      (none : Option Nat) = some REG_RSVD_30 →
      ({ hdr_tpe := .TYPE1, opcode := .WRITE, reg_addr := REG_FAR,
         reserved := some 0, word_count := 1, data := [7],
         byte_ofst := 0 } : Packet).data = [] ∧
      ({ hdr_tpe := .TYPE1, opcode := .WRITE, reg_addr := REG_FAR,
         reserved := some 0, word_count := 1, data := [7],
         byte_ofst := 0 } : Packet).reg_addr = REG_RSVD_30) ∧
    (¬(({ hdr_tpe := .TYPE1, opcode := .WRITE, reg_addr := REG_FAR,
          reserved := some 0, word_count := 1, data := [7],
          byte_ofst := 0 } : Packet).hdr_tpe = PktType.TYPE2 ∧
        ({ hdr_tpe := .TYPE1, opcode := .WRITE, reg_addr := REG_FAR,
           reserved := some 0, word_count := 1, data := [7],
           byte_ofst := 0 } : Packet).opcode = Opcode.WRITE ∧
        (none : Option Nat) = some REG_RSVD_30) →
      0 + 1 + ({ hdr_tpe := .TYPE1, opcode := .WRITE, reg_addr := REG_FAR,
                 reserved := some 0, word_count := 1, data := [7],
                 byte_ofst := 0 } : Packet).word_count ≤
        ([0x30002001, 7] : List Nat).length →
      ({ hdr_tpe := .TYPE1, opcode := .WRITE, reg_addr := REG_FAR,
         reserved := some 0, word_count := 1, data := [7],
         byte_ofst := 0 } : Packet).data.length =
        ({ hdr_tpe := .TYPE1, opcode := .WRITE, reg_addr := REG_FAR,
           reserved := some 0, word_count := 1, data := [7],
           byte_ofst := 0 } : Packet).word_count) :=
  c5_payload_matches_word_count [0x30002001, 7] 0 0 none _ (by rfl)

/-! ### bitstream_state_checker.py: flip-flop check -/

/-- Embeds the FF branch of `check_state` (lines 153-157): the expected frame
bit is the INIT value inverted (`0 if expected_reg_init == 1 else 1`,
XAPP1230 capture inversion), the found bit is read with `ConfigFrame.bit`,
and the check passes iff they are equal.  `none` models a failing
`ConfigFrame.bit` assertion. -/
def ff_check (frame : ConfigFrame) (frame_ofst : Nat)
    (expected_reg_init : Nat) : Option Bool :=
  let expected := if expected_reg_init = 1 then 0 else 1
  (frame.bit frame_ofst).map fun found_reg_init =>
    found_reg_init == expected

/-- Claim C7: for a well-formed frame, an in-range offset and a 1-bit INIT
value, the FF state check passes iff the bit stored in the frame equals the
logical inverse `1 - INIT` of the expected INIT; in particular for
`INIT = 1'b1` the check passes exactly when the stored bit is 0. -/
theorem c7_ff_check_inverted (c : ConfigFrame) (o init : Nat)
    (hwf : c.words.length = c.spec.frame_size_words)
    (ho : o < 32 * c.spec.frame_size_words) (hinit : init ≤ 1) :
    ∃ w, c.words[o / 32]? = some w ∧
      (ff_check c o init = some true ↔ w / 2 ^ (o % 32) % 2 = 1 - init) ∧
      (init = 1 → (ff_check c o init = some true ↔
        w / 2 ^ (o % 32) % 2 = 0)) := by
  have hidx : o / 32 < c.words.length := by
    rw [hwf]
    omega
  have hbit : c.bit o = some (c.words[o / 32] / 2 ^ (o % 32) % 2) := by
    unfold ConfigFrame.bit
    simp only [List.getElem?_eq_getElem hidx]
    rw [if_pos (by omega), bits_eq_div_mod]
    simp
  refine ⟨c.words[o / 32], List.getElem?_eq_getElem hidx, ?_, ?_⟩
  · unfold ff_check
    rw [hbit]
    simp only [Option.map_some', Option.some_inj, beq_iff_eq]
    rcases Nat.le_one_iff_eq_zero_or_eq_one.mp hinit with rfl | rfl <;> simp
  · intro h1
    subst h1
    unfold ff_check
    rw [hbit]
    simp

/-- Witness for C7: a frame whose single word stores bit value 0 at offset 1
passes the check for a FF configured with `INIT = 1`. -/
theorem c7_ff_check_inverted_witness :
    ∃ w, ([5] : List Nat)[1 / 32]? = some w ∧
      (ff_check ⟨0, [5], ⟨0, .CLB_IO_CLK, 0, 0, 0, UltraScaleSpec⟩,
        { UltraScaleSpec with frame_size_words := 1 }⟩ 1 1 = some true ↔
        w / 2 ^ (1 % 32) % 2 = 1 - 1) ∧
      (1 = 1 → (ff_check ⟨0, [5], ⟨0, .CLB_IO_CLK, 0, 0, 0, UltraScaleSpec⟩,
        { UltraScaleSpec with frame_size_words := 1 }⟩ 1 1 = some true ↔
        w / 2 ^ (1 % 32) % 2 = 0)) :=
  c7_ff_check_inverted
    ⟨0, [5], ⟨0, .CLB_IO_CLK, 0, 0, 0, UltraScaleSpec⟩,
      { UltraScaleSpec with frame_size_words := 1 }⟩ 1 1
    (by decide) (by decide) (by decide)

/-! ### bit_locator.py -/

/-- Embeds `ArchSpec.num_clb_per_column` (UG574): 60 CLBs per column. -/
def ArchSpec.num_clb_per_column : Nat := 60

/-- Embeds the `DeviceSummary` lookups used by the bit locator: SLR names in
insertion order, clock-region row bounds per SLR, and per-(SLR, row-major)
CLB / BRAM-content column-major and tile-type lists. -/
structure DeviceSummary where
  slr_names : List String
  min_clock_region_row_idx : String → Nat
  max_clock_region_row_idx : String → Nat
  clb_col_majors : String → Nat → List Nat
  clb_tile_types : String → Nat → List String
  bram_content_col_majors : String → Nat → List Nat

/-- Embeds the `ArchSummary.get_lut_loc` lookup: per tile type, Y offset and
BEL name, the per-LUT-bit minors and frame offsets.  `none` models a missing
entry (the auto-vivified empty tuple fails unpacking in Python). -/
structure ArchSummary where
  lut_locs : String → Nat → String → Option (List Nat × List Nat)

/-- Embeds `BitLocator`: the two reference tables plus the architecture
spec. -/
structure BitLocator where
  arch_summary : ArchSummary
  device_summary : DeviceSummary
  ar_spec : ArchSpec

namespace BitLocator

/-- Embeds `BitLocator._get_slr_name`: the last SLR (in insertion order)
whose absolute Y-range `[min_row * N, (max_row + 1) * N - 1]` contains
`bel_y`; `none` models the assertion failure when no SLR matches. -/
def get_slr_name (bl : BitLocator) (bel_y num_bel_per_column : Nat) :
    Option String :=
  (bl.device_summary.slr_names.filter fun slr_name =>
    decide (bl.device_summary.min_clock_region_row_idx slr_name
        * num_bel_per_column ≤ bel_y) &&
    decide (bel_y ≤ (bl.device_summary.max_clock_region_row_idx slr_name + 1)
        * num_bel_per_column - 1)).getLast?

/-- Embeds `BitLocator._get_row_major`: the last row major in
`[min_row .. max_row]` whose sub-range contains `bel_y`, made relative to the
SLR by subtracting `min_row`. -/
def get_row_major (bl : BitLocator) (bel_y : Nat) (slr_name : String)
    (num_bel_per_column : Nat) : Option Nat :=
  let min_rowMajor := bl.device_summary.min_clock_region_row_idx slr_name
  let max_rowMajor := bl.device_summary.max_clock_region_row_idx slr_name
  ((List.range' min_rowMajor (max_rowMajor + 1 - min_rowMajor)).filter
    fun rowMajor =>
      decide (rowMajor * num_bel_per_column ≤ bel_y) &&
      decide (bel_y ≤ (rowMajor + 1) * num_bel_per_column - 1)).getLast?.map
    fun abs_rowMajor => abs_rowMajor - min_rowMajor

/-- Embeds `BitLocator._get_col_major`: maps the logical column index to the
physical column major and the tile type; `none` models the assertion on an
unexpected block type and out-of-range list indexing. -/
def get_col_major (bl : BitLocator) (bel_x : Nat) (slr_name : String)
    (row_major : Nat) (block_type : FarBlockType) : Option (Nat × String) :=
  match block_type with
  | .CLB_IO_CLK =>
    match (bl.device_summary.clb_col_majors slr_name row_major)[bel_x]?,
        (bl.device_summary.clb_tile_types slr_name row_major)[bel_x]? with
    | some colMajor, some tileType => some (colMajor, tileType)
    | _, _ => none
  | .BRAM_CONTENT =>
    match (bl.device_summary.bram_content_col_majors slr_name
        row_major)[bel_x]? with
    | some colMajor => some (colMajor, "BRAM")
    | none => none
  | _ => none

/-- Embeds `BitLocator.locate_lut` after name parsing (`bel_x`, `bel_y` and
the BEL name are the regex captures): resolves SLR, row major, column major
and tile type, then builds one FAR per LUT bit from the per-minor table
entry, with `reserved = 0` and `block_type = CLB_IO_CLK`. -/
def locate_lut (bl : BitLocator) (bel_x bel_y : Nat) (bel_name : String) :
    Option (String × List FrameAddressRegister × List Nat) :=
  match bl.get_slr_name bel_y ArchSpec.num_clb_per_column with
  | none => none
  | some slr_name =>
    match bl.get_row_major bel_y slr_name ArchSpec.num_clb_per_column with
    | none => none
    | some row_major =>
      match bl.get_col_major bel_x slr_name row_major .CLB_IO_CLK with
      | none => none
      | some (col_major, col_tile_type) =>
        let y_ofst := bel_y % ArchSpec.num_clb_per_column
        match bl.arch_summary.lut_locs col_tile_type y_ofst bel_name with
        | none => none
        | some (minors, frame_ofsts) =>
          some (slr_name,
            minors.map fun minor =>
              { reserved := 0, block_type := .CLB_IO_CLK
                row_addr := row_major, col_addr := col_major
                minor_addr := minor, spec := bl.ar_spec },
            frame_ofsts)

end BitLocator

/-- Claim C8: whenever `locate_lut` resolves a LUT (SLR, row major, column
major, tile type all found) and the architecture table returns 64 minors and
64 frame offsets whose offsets are below `32 * frame_size_words` and whose
(minor, offset) pairs are mutually distinct — the table contract, one entry
per configuration bit — then the 64 returned FARs all have `reserved = 0`,
`block_type = CLB_IO_CLK`, identical `row_addr` and `col_addr` (differing
only in `minor_addr`), the 64 offsets lie in `[0, 32 * frame_size_words)`,
and the 64 (FAR, offset) pairs are mutually distinct. -/
theorem c8_locate_lut (bl : BitLocator) (x y : Nat) (bel : String)
    (slr : String) (row col : Nat) (tile : String)
    (minors frame_ofsts : List Nat)
    (hslr : bl.get_slr_name y ArchSpec.num_clb_per_column = some slr)
    (hrow : bl.get_row_major y slr ArchSpec.num_clb_per_column = some row)
    (hcol : bl.get_col_major x slr row .CLB_IO_CLK = some (col, tile))
    (htab : bl.arch_summary.lut_locs tile (y % ArchSpec.num_clb_per_column)
      bel = some (minors, frame_ofsts))
    (hlen : minors.length = 64) (hlen2 : frame_ofsts.length = 64)
    (hran : ∀ fo ∈ frame_ofsts, fo < 32 * bl.ar_spec.frame_size_words)
    (hnd : (minors.zip frame_ofsts).Nodup) :
    ∃ fars, bl.locate_lut x y bel = some (slr, fars, frame_ofsts) ∧
      fars.length = 64 ∧ frame_ofsts.length = 64 ∧
      (∀ f ∈ fars, f.reserved = 0 ∧ f.block_type = FarBlockType.CLB_IO_CLK ∧
        f.row_addr = row ∧ f.col_addr = col ∧ f.spec = bl.ar_spec) ∧
      (∀ fo ∈ frame_ofsts, fo < 32 * bl.ar_spec.frame_size_words) ∧
      (fars.zip frame_ofsts).Nodup := by
  refine ⟨minors.map fun minor =>
    { reserved := 0, block_type := .CLB_IO_CLK, row_addr := row
      col_addr := col, minor_addr := minor, spec := bl.ar_spec }, ?_, ?_,
    hlen2, ?_, hran, ?_⟩
  · simp only [BitLocator.locate_lut, hslr, hrow, hcol, htab]
  · rw [List.length_map, hlen]
  · intro f hf
    obtain ⟨m, _, rfl⟩ := List.mem_map.mp hf
    exact ⟨rfl, rfl, rfl, rfl, rfl⟩
  · have hzip : (minors.map fun minor =>
        ({ reserved := 0, block_type := .CLB_IO_CLK, row_addr := row
           col_addr := col, minor_addr := minor, spec := bl.ar_spec } :
          FrameAddressRegister)).zip frame_ofsts =
        (minors.zip frame_ofsts).map fun p =>
          ({ reserved := 0, block_type := .CLB_IO_CLK, row_addr := row
             col_addr := col, minor_addr := p.1, spec := bl.ar_spec },
           p.2) := by
      rw [List.zip_map_left]
      rfl
    rw [hzip]
    refine hnd.map ?_
    intro a b hab
    have h1 : a.1 = b.1 := by
      have := congrArg (fun q => q.1.minor_addr) hab
      simpa using this
    have h2 : a.2 = b.2 := by
      have := congrArg (fun q => q.2) hab
      simpa using this
    exact Prod.ext h1 h2

/-- A one-SLR fixture device for the C8 witness: a single row of one CLB
column with column major 5 and tile type CLEL_L. -/
def c8Device : DeviceSummary :=
  { slr_names := ["SLR0"]
    min_clock_region_row_idx := fun _ => 0
    max_clock_region_row_idx := fun _ => 0
    clb_col_majors := fun _ _ => [5]
    clb_tile_types := fun _ _ => ["CLEL_L"]
    bram_content_col_majors := fun _ _ => [] }

/-- A fixture architecture table for the C8 witness: `A6LUT` at Y offset 13
uses minors `0..63` and frame offsets `0..63`. -/
def c8Arch : ArchSummary :=
  { lut_locs := fun tile y_ofst bel =>
      if tile = "CLEL_L" ∧ y_ofst = 13 ∧ bel = "A6LUT" then
        some (List.range 64, List.range 64)
      else
        none }

/-- Witness for C8: `SLICE_X0Y13/A6LUT` on the fixture part resolves to 64
FAR/offset pairs with the claimed properties. -/
theorem c8_locate_lut_witness :
    ∃ fars, BitLocator.locate_lut ⟨c8Arch, c8Device, UltraScaleSpec⟩ 0 13
        "A6LUT" = some ("SLR0", fars, List.range 64) ∧
      fars.length = 64 ∧ (List.range 64).length = 64 ∧
      (∀ f ∈ fars, f.reserved = 0 ∧ f.block_type = FarBlockType.CLB_IO_CLK ∧
        f.row_addr = 0 ∧ f.col_addr = 5 ∧ f.spec = UltraScaleSpec) ∧
      (∀ fo ∈ List.range 64, fo < 32 * UltraScaleSpec.frame_size_words) ∧
      (fars.zip (List.range 64)).Nodup :=
  c8_locate_lut ⟨c8Arch, c8Device, UltraScaleSpec⟩ 0 13 "A6LUT" "SLR0" 0 5
    "CLEL_L" (List.range 64) (List.range 64)
    (by decide) (by decide) (by decide) (by decide) (by decide) (by decide)
    (by decide) (by decide)

/-! ### bitstream.py: is_per_frame_crc -/

/-- Indices (positions in the packet list) of the WRITE packets targeting a
given register: the `enumerate`-and-filter generators of
`Bitstream.is_per_frame_crc`. -/
def write_pkt_idxs (reg_addr : Nat) (pkts : List Packet) : List Nat :=
  (pkts.enum.filter fun ip => is_reg_write_pkt ip.2 reg_addr).map Prod.fst

/-- Embeds the walrus loop `while (crc_idx := next(crc_packets_idx)) < bound`
over the CRC-index generator chained with `repeat(math.inf)`: consume
entries strictly below `bound`; the result is the first entry at or above
`bound` (`none` models `math.inf` once the generator is exhausted) together
with the generator state after it. -/
def advance_crc (crcs : List Nat) (bound : Nat) : Option Nat × List Nat :=
  match crcs with
  | [] => (none, [])
  | c :: rest => if c < bound then advance_crc rest bound else (some c, rest)

/-- Embeds the `for (prev_fdri_idx, next_fdri_idx) in windowed(...)` loop of
`Bitstream.is_per_frame_crc` for two or more FDRI writes: for each
consecutive pair of FDRI indices, advance the shared CRC generator past the
first index and early-exit (`none`, i.e. `return False`) when the found CRC
index is `math.inf` or exceeds the second index; `some` returns the CRC
generator state for the final check. -/
def crc_pair_loop : List (Nat × Nat) → List Nat → Option (List Nat)
  | [], crcs => some crcs
  | (prev_fdri_idx, next_fdri_idx) :: rest, crcs =>
    match advance_crc crcs prev_fdri_idx with
    | (none, _) => none
    | (some crc_idx, crcs2) =>
      if next_fdri_idx < crc_idx then none
      else crc_pair_loop rest crcs2

/-- Embeds `Bitstream.is_per_frame_crc`.  The first loop returns `False` as
soon as some FDRI write is not exactly one frame.  Past that loop, with zero
FDRI writes the final `while` reads the unassigned `next_fdri_idx`
(UnboundLocalError); with exactly one FDRI write (necessarily a full frame,
or the first loop would already have returned) `windowed` yields
`(idx, None)` and the comparison `next_fdri_idx < crc_idx` raises TypeError.
With two or more FDRI writes the pair loop runs, then the final check
advances the CRC generator past the last FDRI index and returns `False` iff
it hits `math.inf`. -/
def is_per_frame_crc (fsw : Nat) (pkts : List Packet) :
    Except PktErr Bool :=
  if pkts.any fun p =>
      is_reg_write_pkt p REG_FDRI && decide (p.data_size_words ≠ fsw) then
    .ok false
  else
    let fdri_packets_idx := write_pkt_idxs REG_FDRI pkts
    let crc_packets_idx := write_pkt_idxs REG_CRC pkts
    match fdri_packets_idx with
    | [] => .error .unboundLocalError
    | [_] => .error .typeError
    | a :: b :: rest =>
      match crc_pair_loop ((a :: b :: rest).zip (b :: rest))
          crc_packets_idx with
      | none => .ok false
      | some crcs2 =>
        match (advance_crc crcs2 ((a :: b :: rest).getLast (by simp))).1 with
        | none => .ok false
        | some _ => .ok true

/-- The per-frame-CRC condition in the words of the specification: every
WRITE to FDRI carries exactly one frame, a WRITE to CRC occurs strictly
between every two consecutive FDRI writes, and a WRITE to CRC occurs after
the last FDRI write. -/
def per_frame_crc_spec (fsw : Nat) (pkts : List Packet) : Prop :=
  (∀ p ∈ pkts, is_reg_write_pkt p REG_FDRI = true →
    p.data_size_words = fsw) ∧
  (∀ pr ∈ (write_pkt_idxs REG_FDRI pkts).zip
      (write_pkt_idxs REG_FDRI pkts).tail,
    ∃ c ∈ write_pkt_idxs REG_CRC pkts, pr.1 < c ∧ c < pr.2) ∧
  (∀ lastIdx, (write_pkt_idxs REG_FDRI pkts).getLast? = some lastIdx →
    ∃ c ∈ write_pkt_idxs REG_CRC pkts, lastIdx < c)

theorem advance_crc_none (S : List Nat) (bound : Nat) (S2 : List Nat)
    (h : advance_crc S bound = (none, S2)) : ∀ c ∈ S, c < bound := by
  induction S generalizing S2 with
  | nil => intro c hc; cases hc
  | cons c rest ih =>
    intro x hx
    unfold advance_crc at h
    by_cases hc : c < bound
    · rw [if_pos hc] at h
      rcases List.mem_cons.mp hx with rfl | hx2
      · exact hc
      · exact ih S2 h x hx2
    · rw [if_neg hc] at h
      cases h

theorem advance_crc_some (S : List Nat) (bound : Nat) (cstar : Nat)
    (S2 : List Nat) (hs : S.Pairwise (· < ·))
    (h : advance_crc S bound = (some cstar, S2)) :
    cstar ∈ S ∧ bound ≤ cstar ∧ (∀ c ∈ S, bound ≤ c → cstar ≤ c) ∧
      S2.Pairwise (· < ·) ∧ (∀ c ∈ S2, c ∈ S) ∧
      (∀ c ∈ S, cstar < c → c ∈ S2) := by
  induction S generalizing S2 with
  | nil => cases h
  | cons c rest ih =>
    rw [List.pairwise_cons] at hs
    unfold advance_crc at h
    by_cases hc : c < bound
    · rw [if_pos hc] at h
      obtain ⟨h1, h2, h3, h4, h5, h6⟩ := ih S2 hs.2 h
      refine ⟨List.mem_cons_of_mem c h1, h2, ?_, h4, fun x hx =>
        List.mem_cons_of_mem c (h5 x hx), ?_⟩
      · intro x hx hbx
        rcases List.mem_cons.mp hx with rfl | hx2
        · omega
        · exact h3 x hx2 hbx
      · intro x hx hcx
        rcases List.mem_cons.mp hx with rfl | hx2
        · exfalso
          have := hs.1 cstar h1
          omega
        · exact h6 x hx2 hcx
    · rw [if_neg hc] at h
      obtain ⟨rfl, rfl⟩ : c = cstar ∧ rest = S2 := by
        have h1 := congrArg Prod.fst h
        have h2 := congrArg Prod.snd h
        simp at h1 h2
        exact ⟨h1, h2⟩
      refine ⟨List.mem_cons_self _ _, Nat.le_of_not_lt hc, ?_, hs.2,
        fun x hx => List.mem_cons_of_mem _ hx, ?_⟩
      · intro x hx _
        rcases List.mem_cons.mp hx with rfl | hx2
        · exact Nat.le_refl x
        · exact Nat.le_of_lt (hs.1 x hx2)
      · intro x hx hcx
        rcases List.mem_cons.mp hx with rfl | hx2
        · omega
        · exact hx2

theorem crc_pair_loop_spec (l : List Nat) (a : Nat) (S : List Nat)
    (hf : (a :: l).Pairwise (· < ·)) (hs : S.Pairwise (· < ·))
    (hdisj : ∀ x ∈ a :: l, x ∉ S) :
    (crc_pair_loop ((a :: l).zip l) S = none →
      ¬ ∀ pr ∈ (a :: l).zip l, ∃ c ∈ S, pr.1 < c ∧ c < pr.2) ∧
    (∀ S3, crc_pair_loop ((a :: l).zip l) S = some S3 →
      (∀ pr ∈ (a :: l).zip l, ∃ c ∈ S, pr.1 < c ∧ c < pr.2) ∧
      S3.Pairwise (· < ·) ∧ (∀ c ∈ S3, c ∈ S) ∧
      (∀ c ∈ S, (a :: l).getLast (by simp) ≤ c → c ∈ S3)) := by
  induction l generalizing a S with
  | nil =>
    constructor
    · intro h
      simp [crc_pair_loop] at h
    · intro S3 h
      simp only [List.zip_nil_right, crc_pair_loop, Option.some_inj] at h
      subst h
      exact ⟨by simp, hs, fun c hc => hc, fun c hc _ => hc⟩
  | cons b l2 ih =>
    have hzip : (a :: b :: l2).zip (b :: l2) =
        (a, b) :: (b :: l2).zip l2 := rfl
    have hfb : (b :: l2).Pairwise (· < ·) := (List.pairwise_cons.mp hf).2
    have hab : a < b := (List.pairwise_cons.mp hf).1 b (List.mem_cons_self _ _)
    have hble : ∀ x ∈ b :: l2, b ≤ x := by
      intro x hx
      rcases List.mem_cons.mp hx with rfl | hx2
      · exact Nat.le_refl x
      · exact Nat.le_of_lt ((List.pairwise_cons.mp hfb).1 x hx2)
    rw [hzip]
    cases hadv : advance_crc S a with
    | mk copt S2 =>
      cases copt with
      | none =>
        have hall := advance_crc_none S a S2 hadv
        constructor
        · intro _ hforall
          obtain ⟨c, hcS, hac, _⟩ := hforall (a, b) (List.mem_cons_self _ _)
          have := hall c hcS
          omega
        · intro S3 h
          rw [crc_pair_loop, hadv] at h
          simp at h
      | some cstar =>
        obtain ⟨hc1, hc2, hc3, hc4, hc5, hc6⟩ :=
          advance_crc_some S a cstar S2 hs hadv
        have hane : a ≠ cstar := fun he =>
          hdisj a (List.mem_cons_self _ _) (he ▸ hc1)
        have halt : a < cstar := by omega
        by_cases hbc : b < cstar
        · constructor
          · intro _ hforall
            obtain ⟨c, hcS, hac, hcb⟩ := hforall (a, b)
              (List.mem_cons_self _ _)
            have := hc3 c hcS (by omega)
            omega
          · intro S3 h
            rw [crc_pair_loop, hadv] at h
            simp only [if_pos hbc] at h
            cases h
        · have hbne : cstar ≠ b := fun he =>
            hdisj b (List.mem_cons_of_mem _ (List.mem_cons_self _ _))
              (he ▸ hc1)
          have hcb : cstar < b := by omega
          have hdisj2 : ∀ x ∈ b :: l2, x ∉ S2 := fun x hx hxS2 =>
            hdisj x (List.mem_cons_of_mem _ hx) (hc5 x hxS2)
          obtain ⟨ihn, ihs⟩ := ih b S2 hfb hc4 hdisj2
          have hlift : ∀ pr ∈ (b :: l2).zip l2,
              (∃ c ∈ S, pr.1 < c ∧ c < pr.2) → ∃ c ∈ S2, pr.1 < c ∧ c < pr.2 := by
            intro pr hpr ⟨c, hcS, h1, h2⟩
            have hpr1 : b ≤ pr.1 := hble pr.1 (List.of_mem_zip hpr).1
            exact ⟨c, hc6 c hcS (by omega), h1, h2⟩
          constructor
          · intro h hforall
            rw [crc_pair_loop, hadv] at h
            simp only [if_neg (show ¬ b < cstar by omega)] at h
            refine ihn h ?_
            intro pr hpr
            exact hlift pr hpr
              (hforall pr (List.mem_cons_of_mem _ hpr))
          · intro S3 h
            rw [crc_pair_loop, hadv] at h
            simp only [if_neg (show ¬ b < cstar by omega)] at h
            obtain ⟨ih1, ih2, ih3, ih4⟩ := ihs S3 h
            refine ⟨?_, ih2, fun c hc => hc5 c (ih3 c hc), ?_⟩
            · intro pr hpr
              rcases List.mem_cons.mp hpr with rfl | hpr2
              · exact ⟨cstar, hc1, halt, hcb⟩
              · obtain ⟨c, hcS2, hx1, hx2⟩ := ih1 pr hpr2
                exact ⟨c, hc5 c hcS2, hx1, hx2⟩
            · intro c hcS hlast
              have hlast_eq : (a :: b :: l2).getLast (by simp) =
                  (b :: l2).getLast (by simp) := List.getLast_cons (by simp)
              rw [hlast_eq] at hlast
              have hbl : b ≤ (b :: l2).getLast (by simp) :=
                hble _ (List.getLast_mem (by simp))
              exact ih4 c (hc6 c hcS (by omega)) hlast

theorem write_pkt_idxs_pairwise (reg_addr : Nat) (pkts : List Packet) :
    (write_pkt_idxs reg_addr pkts).Pairwise (· < ·) := by
  have h1 : List.Sublist
      ((pkts.enum.filter fun ip => is_reg_write_pkt ip.2 reg_addr).map
        Prod.fst)
      (pkts.enum.map Prod.fst) := (List.filter_sublist _).map Prod.fst
  rw [List.enum_map_fst] at h1
  exact (List.pairwise_lt_range _).sublist h1

theorem write_pkt_idxs_mem (reg_addr : Nat) (pkts : List Packet) (i : Nat) :
    i ∈ write_pkt_idxs reg_addr pkts ↔
      ∃ p, pkts[i]? = some p ∧ is_reg_write_pkt p reg_addr = true := by
  unfold write_pkt_idxs
  constructor
  · intro h
    obtain ⟨⟨j, p⟩, hmem, rfl⟩ := List.mem_map.mp h
    obtain ⟨henum, hpred⟩ := List.mem_filter.mp hmem
    exact ⟨p, List.mem_enum_iff_getElem?.mp henum, hpred⟩
  · intro ⟨p, hget, hpred⟩
    exact List.mem_map.mpr ⟨(i, p),
      List.mem_filter.mpr ⟨List.mem_enum_iff_getElem?.mpr hget, hpred⟩, rfl⟩

theorem write_pkt_idxs_disjoint (pkts : List Packet) (i : Nat)
    (h1 : i ∈ write_pkt_idxs REG_FDRI pkts) :
    i ∉ write_pkt_idxs REG_CRC pkts := by
  intro h2
  obtain ⟨p, hp, hpr⟩ := (write_pkt_idxs_mem _ _ _).mp h1
  obtain ⟨q, hq, hqr⟩ := (write_pkt_idxs_mem _ _ _).mp h2
  obtain rfl := Option.some.inj (hp ▸ hq)
  unfold is_reg_write_pkt at hpr hqr
  simp only [Bool.and_eq_true, beq_iff_eq] at hpr hqr
  rw [hpr.2] at hqr
  cases hqr.2

/-- Claim C6 fails as stated: with exactly one FDRI write carrying one full
frame, followed by a CRC write (so the claimed iff-condition is true),
`is_per_frame_crc` raises TypeError by comparing the `windowed` fill value
`None` with an integer, instead of returning true. -/
theorem c6_per_frame_crc_counterexample :
    is_per_frame_crc 1
      [{ hdr_tpe := .TYPE1, opcode := .WRITE, reg_addr := REG_FDRI,
         reserved := some 0, word_count := 1, data := [0], byte_ofst := 0 },
       { hdr_tpe := .TYPE1, opcode := .WRITE, reg_addr := REG_CRC,
         reserved := some 0, word_count := 1, data := [1], byte_ofst := 8 }]
      = .error .typeError ∧
    per_frame_crc_spec 1
      [{ hdr_tpe := .TYPE1, opcode := .WRITE, reg_addr := REG_FDRI,
         reserved := some 0, word_count := 1, data := [0], byte_ofst := 0 },
       { hdr_tpe := .TYPE1, opcode := .WRITE, reg_addr := REG_CRC,
         reserved := some 0, word_count := 1, data := [1], byte_ofst := 8 }] := by
  refine ⟨by rfl, by decide, by decide, ?_⟩
  intro lastIdx h
  have heq : write_pkt_idxs REG_FDRI
      [{ hdr_tpe := .TYPE1, opcode := .WRITE, reg_addr := REG_FDRI,
         reserved := some 0, word_count := 1, data := [0], byte_ofst := 0 },
       { hdr_tpe := .TYPE1, opcode := .WRITE, reg_addr := REG_CRC,
         reserved := some 0, word_count := 1, data := [1], byte_ofst := 8 }]
      = [0] := by rfl
  rw [heq] at h
  obtain rfl := Option.some.inj h
  exact ⟨1, by decide, by decide⟩

/-- For a packet list containing at least two FDRI writes no exception path
is reachable: `is_per_frame_crc` returns a boolean, true exactly when the
declarative per-frame-CRC condition holds. -/
theorem is_per_frame_crc_two_or_more (fsw : Nat) (pkts : List Packet)
    (hfdri : 2 ≤ (write_pkt_idxs REG_FDRI pkts).length) :
    ∃ b, is_per_frame_crc fsw pkts = .ok b ∧
      (b = true ↔ per_frame_crc_spec fsw pkts) := by
  unfold is_per_frame_crc
  by_cases hany : pkts.any fun p =>
      is_reg_write_pkt p REG_FDRI && decide (p.data_size_words ≠ fsw)
  · rw [if_pos hany]
    refine ⟨false, rfl, iff_of_false (by simp) ?_⟩
    intro hspec
    rw [List.any_eq_true] at hany
    obtain ⟨p, hp, hcond⟩ := hany
    simp only [Bool.and_eq_true, decide_eq_true_eq] at hcond
    exact hcond.2 (hspec.1 p hp hcond.1)
  · rw [if_neg hany]
    have ha : ∀ p ∈ pkts, is_reg_write_pkt p REG_FDRI = true →
        p.data_size_words = fsw := by
      intro p hp hw
      by_contra hne
      exact hany (List.any_eq_true.mpr ⟨p, hp,
        by simp [hw, hne]⟩)
    simp only
    cases hft : write_pkt_idxs REG_FDRI pkts with
    | nil => rw [hft] at hfdri; simp at hfdri
    | cons a tl =>
      cases tl with
      | nil => rw [hft] at hfdri; simp at hfdri
      | cons b rest =>
        dsimp only
        have hfP : (a :: b :: rest).Pairwise (· < ·) :=
          hft ▸ write_pkt_idxs_pairwise REG_FDRI pkts
        have hcP : (write_pkt_idxs REG_CRC pkts).Pairwise (· < ·) :=
          write_pkt_idxs_pairwise REG_CRC pkts
        have hdisj : ∀ x ∈ a :: b :: rest,
            x ∉ write_pkt_idxs REG_CRC pkts := by
          intro x hx
          exact write_pkt_idxs_disjoint pkts x (hft ▸ hx)
        obtain ⟨hnone, hsome⟩ := crc_pair_loop_spec (b :: rest) a
          (write_pkt_idxs REG_CRC pkts) hfP hcP hdisj
        cases hloop : crc_pair_loop ((a :: b :: rest).zip (b :: rest))
            (write_pkt_idxs REG_CRC pkts) with
        | none =>
          refine ⟨false, rfl, iff_of_false (by simp) ?_⟩
          intro hspec
          refine hnone hloop ?_
          have hp2 := hspec.2.1
          rw [hft] at hp2
          exact hp2
        | some S2 =>
          obtain ⟨hpairs, hS2P, hS2sub, hsurv⟩ := hsome S2 hloop
          dsimp only
          cases hfin : advance_crc S2 ((a :: b :: rest).getLast (by simp)) with
          | mk copt S3 =>
            cases copt with
            | none =>
              have hall := advance_crc_none _ _ _ hfin
              refine ⟨false, by rfl, iff_of_false (by simp) ?_⟩
              intro hspec
              obtain ⟨c, hcmem, hclast⟩ := hspec.2.2
                ((a :: b :: rest).getLast (by simp))
                (by rw [hft]
                    exact List.getLast?_eq_getLast_of_ne_nil (by simp))
              have hcS2 : c ∈ S2 := hsurv c hcmem (Nat.le_of_lt hclast)
              have := hall c hcS2
              omega
            | some c0 =>
              refine ⟨true, by rfl, iff_of_true rfl ?_⟩
              obtain ⟨hm1, hm2, _, _, _, _⟩ := advance_crc_some _ _ _ _
                hS2P hfin
              refine ⟨ha, ?_, ?_⟩
              · rw [hft]
                exact hpairs
              · intro lastIdx hlast
                rw [hft] at hlast
                rw [List.getLast?_eq_getLast_of_ne_nil (by simp)] at hlast
                obtain hlast2 := (Option.some.inj hlast).symm
                subst hlast2
                refine ⟨c0, hS2sub c0 hm1, ?_⟩
                have hne : (a :: b :: rest).getLast (by simp) ≠ c0 := by
                  intro he
                  refine hdisj _ (List.getLast_mem (by simp)) ?_
                  rw [he]
                  exact hS2sub c0 hm1
                omega

/-- With no FDRI write at all the first loop cannot early-exit and `windowed`
yields no pair, so the final `while` reads the never-assigned
`next_fdri_idx`: UnboundLocalError. -/
theorem is_per_frame_crc_zero_fdri (fsw : Nat) (pkts : List Packet)
    (hnil : write_pkt_idxs REG_FDRI pkts = []) :
    is_per_frame_crc fsw pkts = .error PktErr.unboundLocalError := by
  unfold is_per_frame_crc
  have hany : ¬(pkts.any fun p =>
      is_reg_write_pkt p REG_FDRI &&
        decide (p.data_size_words ≠ fsw)) = true := by
    intro hany
    obtain ⟨q, hq, hcond⟩ := List.any_eq_true.mp hany
    simp only [Bool.and_eq_true, decide_eq_true_eq] at hcond
    obtain ⟨j, hj⟩ := List.getElem?_of_mem hq
    have hjm : j ∈ write_pkt_idxs REG_FDRI pkts :=
      (write_pkt_idxs_mem _ _ _).mpr ⟨q, hj, hcond.1⟩
    rw [hnil] at hjm
    cases hjm
  rw [if_neg hany]
  simp only
  rw [hnil]

/-- With exactly one FDRI write the behaviour depends on that write's payload
size: a payload that is not exactly one frame makes the first loop return
`False`; a full-frame payload survives the first loop and `windowed` then
pads the single index with `None`, whose comparison with an integer raises
TypeError. -/
theorem is_per_frame_crc_one_fdri (fsw : Nat) (pkts : List Packet) (i : Nat)
    (p : Packet) (hsing : write_pkt_idxs REG_FDRI pkts = [i])
    (hget : pkts[i]? = some p) :
    is_per_frame_crc fsw pkts =
      if p.data_size_words = fsw then .error PktErr.typeError
      else .ok false := by
  have hponly : ∀ q ∈ pkts, is_reg_write_pkt q REG_FDRI = true → q = p := by
    intro q hq hw
    obtain ⟨j, hj⟩ := List.getElem?_of_mem hq
    have hjm : j ∈ write_pkt_idxs REG_FDRI pkts :=
      (write_pkt_idxs_mem _ _ _).mpr ⟨q, hj, hw⟩
    rw [hsing, List.mem_singleton] at hjm
    subst hjm
    rw [hget] at hj
    exact (Option.some.inj hj).symm
  by_cases hsz : p.data_size_words = fsw
  · rw [if_pos hsz]
    unfold is_per_frame_crc
    have hany : ¬(pkts.any fun q =>
        is_reg_write_pkt q REG_FDRI &&
          decide (q.data_size_words ≠ fsw)) = true := by
      intro hany
      obtain ⟨q, hq, hcond⟩ := List.any_eq_true.mp hany
      simp only [Bool.and_eq_true, decide_eq_true_eq] at hcond
      obtain rfl := hponly q hq hcond.1
      exact hcond.2 hsz
    rw [if_neg hany]
    simp only
    rw [hsing]
  · rw [if_neg hsz]
    unfold is_per_frame_crc
    have hpmem : p ∈ pkts := List.getElem?_mem hget
    have hpw : is_reg_write_pkt p REG_FDRI = true := by
      obtain ⟨p2, hget2, hw2⟩ := (write_pkt_idxs_mem REG_FDRI pkts i).mp
        (by rw [hsing]; exact List.mem_singleton_self i)
      rw [hget] at hget2
      obtain rfl := Option.some.inj hget2
      exact hw2
    have hany : (pkts.any fun q =>
        is_reg_write_pkt q REG_FDRI &&
          decide (q.data_size_words ≠ fsw)) = true :=
      List.any_eq_true.mpr ⟨p, hpmem, by simp [hpw, hsz]⟩
    rw [if_pos hany]

/-- Claim C6 (amended): for every parsed packet list containing at least two
FDRI writes, `is_per_frame_crc` returns (without raising) true iff (a) every
WRITE to FDRI has a payload of exactly one frame, and (b) a WRITE to CRC
occurs strictly between every two consecutive FDRI writes and after the last
FDRI write.  With zero FDRI writes it raises UnboundLocalError; with exactly
one FDRI write it returns `False` when that write's payload is not exactly
one frame, and raises TypeError otherwise. -/
theorem c6_is_per_frame_crc (fsw : Nat) (pkts : List Packet) :
    (2 ≤ (write_pkt_idxs REG_FDRI pkts).length →
      ∃ b, is_per_frame_crc fsw pkts = .ok b ∧
        (b = true ↔ per_frame_crc_spec fsw pkts)) ∧
    (write_pkt_idxs REG_FDRI pkts = [] →
      is_per_frame_crc fsw pkts = .error PktErr.unboundLocalError) ∧
    (∀ i p, write_pkt_idxs REG_FDRI pkts = [i] → pkts[i]? = some p →
      is_per_frame_crc fsw pkts =
        if p.data_size_words = fsw then .error PktErr.typeError
        else .ok false) :=
  ⟨is_per_frame_crc_two_or_more fsw pkts,
   is_per_frame_crc_zero_fdri fsw pkts,
   fun i p hsing hget => is_per_frame_crc_one_fdri fsw pkts i p hsing hget⟩

/-- Witness for C6: a four-packet list with two one-frame FDRI writes, each
followed by a CRC write, is recognized as per-frame CRC, matching the
specification condition; the empty packet list hits UnboundLocalError; a
single FDRI write with a two-word payload at frame size one returns `False`
from the size-check loop. -/
theorem c6_is_per_frame_crc_witness :
    (∃ b, is_per_frame_crc 1
      [{ hdr_tpe := .TYPE1, opcode := .WRITE, reg_addr := REG_FDRI,
         reserved := some 0, word_count := 1, data := [0], byte_ofst := 0 },
       { hdr_tpe := .TYPE1, opcode := .WRITE, reg_addr := REG_CRC,
         reserved := some 0, word_count := 1, data := [1], byte_ofst := 8 },
       { hdr_tpe := .TYPE1, opcode := .WRITE, reg_addr := REG_FDRI,
         reserved := some 0, word_count := 1, data := [2], byte_ofst := 16 },
       { hdr_tpe := .TYPE1, opcode := .WRITE, reg_addr := REG_CRC,
         reserved := some 0, word_count := 1, data := [3], byte_ofst := 24 }]
      = .ok b ∧
      (b = true ↔ per_frame_crc_spec 1
        [{ hdr_tpe := .TYPE1, opcode := .WRITE, reg_addr := REG_FDRI,
           reserved := some 0, word_count := 1, data := [0], byte_ofst := 0 },
         { hdr_tpe := .TYPE1, opcode := .WRITE, reg_addr := REG_CRC,
           reserved := some 0, word_count := 1, data := [1], byte_ofst := 8 },
         { hdr_tpe := .TYPE1, opcode := .WRITE, reg_addr := REG_FDRI,
           reserved := some 0, word_count := 1, data := [2], byte_ofst := 16 },
         { hdr_tpe := .TYPE1, opcode := .WRITE, reg_addr := REG_CRC,
           reserved := some 0, word_count := 1, data := [3],
           byte_ofst := 24 }])) ∧
    is_per_frame_crc 1 ([] : List Packet) =
      .error PktErr.unboundLocalError ∧
    is_per_frame_crc 1
      [{ hdr_tpe := .TYPE1, opcode := .WRITE, reg_addr := REG_FDRI,
         reserved := some 0, word_count := 2, data := [0, 1],
         byte_ofst := 0 }] = .ok false := by
  refine ⟨(c6_is_per_frame_crc 1 _).1 (by decide),
    (c6_is_per_frame_crc 1 ([] : List Packet)).2.1 (by rfl), ?_⟩
  have hc : ¬(Packet.data_size_words
      { hdr_tpe := .TYPE1, opcode := .WRITE, reg_addr := REG_FDRI,
        reserved := some 0, word_count := 2, data := [0, 1],
        byte_ofst := 0 } = 1) := by decide
  have h := (c6_is_per_frame_crc 1
      [{ hdr_tpe := .TYPE1, opcode := .WRITE, reg_addr := REG_FDRI,
         reserved := some 0, word_count := 2, data := [0, 1],
         byte_ofst := 0 }]).2.2 0
      { hdr_tpe := .TYPE1, opcode := .WRITE, reg_addr := REG_FDRI,
        reserved := some 0, word_count := 2, data := [0, 1], byte_ofst := 0 }
      (by decide) (by rfl)
  rw [if_neg hc] at h
  exact h

/-! ### bitstream.py: per-FAR configuration arrays -/

/-- Embeds `bitstream_spec.NUM_END_OF_ROW_PADDING_FRAMES`. -/
def NUM_END_OF_ROW_PADDING_FRAMES : Nat := 2

/-- Failure modes of the configuration-array walk: the Python assertion on a
nonzero end-of-row padding frame, out-of-range indexing past the end of the
config array, the `ConfigFrame` size assertion, the `reshape` multiple-of-a-
frame assertion, and a failing device-table lookup. -/
inductive CfgErr where
  | integrityViolation
  | indexError
  | frameSizeError
  | lookupError
deriving DecidableEq, Repr

/-- Splits a word array into consecutive chunks of `fsw` words
(`config_array.reshape(-1, frame_size_words)` row by row). -/
def chunkList (fsw : Nat) (arr : List Nat) : List (List Nat) :=
  if h : fsw = 0 ∨ arr = [] then []
  else arr.take fsw :: chunkList fsw (arr.drop fsw)
termination_by arr.length
decreasing_by
  push_neg at h
  rcases arr with _ | ⟨x, rest⟩
  · exact absurd rfl h.2
  · simp only [List.length_drop, List.length_cons]
    omega

/-- Embeds `config_array.reshape(-1, ar_spec.frame_size_words())`: fails
unless the array is a whole number of frames. -/
def reshape_frames (fsw : Nat) (arr : List Nat) : Option (List (List Nat)) :=
  if 0 < fsw ∧ fsw % 1 = 0 ∧ fsw ∣ arr.length then some (chunkList fsw arr)
  else none

/-- Embeds the inner
`for emptyFrame_idx in range(NUM_END_OF_ROW_PADDING_FRAMES)` loop of
`Bitstream.get_per_far_configuration_arrays`: consume `n` end-of-row padding
frames, asserting each is all-zero; returns the remaining frames. -/
def skipPadding : Nat → List (List Nat) → Except CfgErr (List (List Nat))
  | 0, frames => .ok frames
  | _ + 1, [] => .error .indexError
  | n + 1, f :: rest =>
    if f.all fun w => w == 0 then skipPadding n rest
    else .error .integrityViolation

theorem skipPadding_length_le (n : Nat) (l l2 : List (List Nat))
    (h : skipPadding n l = .ok l2) : l2.length ≤ l.length := by
  induction n generalizing l with
  | zero =>
    unfold skipPadding at h
    obtain rfl := Except.ok.inj h
    exact Nat.le_refl _
  | succ k ih =>
    cases l with
    | nil => cases h
    | cons f rest =>
      unfold skipPadding at h
      split at h
      · exact Nat.le_trans (ih rest h) (by simp)
      · cases h

/-- Embeds the `while singleframes_idx < len(singleframes)` walk of
`Bitstream.get_per_far_configuration_arrays` for one contiguous FDRI payload:
each frame becomes a `ConfigFrame` at the current FAR; after a frame whose
FAR is the last of its row, `NUM_END_OF_ROW_PADDING_FRAMES` all-zero padding
frames are consumed without being emitted; the FAR is auto-incremented after
every emitted frame.  `idx` is `singleframes_idx`, used for the frame byte
offsets (`itemsize = 4`). -/
def emitFrames (inc : FrameAddressIncrementer) (idcode : Nat)
    (ar_spec : ArchSpec) (base_byte_ofst : Nat) (frames : List (List Nat))
    (far : FrameAddressRegister) (idx : Nat) :
    Except CfgErr (List ConfigFrame) :=
  match frames with
  | [] => .ok []
  | f :: rest =>
    match ConfigFrame.mk?
        (base_byte_ofst + idx * ar_spec.frame_size_words * 4) f far
        ar_spec with
    | none => .error .frameSizeError
    | some config_frame =>
      match inc.is_last_far_of_row idcode far with
      | none => .error .lookupError
      | some isLast =>
        if isLast then
          match hskip : skipPadding NUM_END_OF_ROW_PADDING_FRAMES rest with
          | .error e => .error e
          | .ok rest2 =>
            match inc.increment idcode far with
            | none => .error .lookupError
            | some far2 =>
              match emitFrames inc idcode ar_spec base_byte_ofst rest2 far2
                  (idx + 1 + NUM_END_OF_ROW_PADDING_FRAMES) with
              | .error e => .error e
              | .ok tail => .ok (config_frame :: tail)
        else
          match inc.increment idcode far with
          | none => .error .lookupError
          | some far2 =>
            match emitFrames inc idcode ar_spec base_byte_ofst rest far2
                (idx + 1) with
            | .error e => .error e
            | .ok tail => .ok (config_frame :: tail)
termination_by frames.length
decreasing_by
  · have := skipPadding_length_le _ _ _ hskip
    simp only [List.length_cons]
    omega
  · simp only [List.length_cons]
    omega

/-- Embeds the outer loops of `Bitstream.get_per_far_configuration_arrays`:
walk the raw configuration arrays (IDCODE, base FAR, byte offset, word
array) in order, split each array into frames and emit per-FAR frames tagged
with their IDCODE. -/
def get_per_far_configuration_arrays (inc : FrameAddressIncrementer)
    (ar_spec : ArchSpec) :
    List (Nat × FrameAddressRegister × Nat × List Nat) →
    Except CfgErr (List (Nat × ConfigFrame))
  | [] => .ok []
  | (idcode, far, base_byte_ofst, config_array) :: rawRest =>
    match reshape_frames ar_spec.frame_size_words config_array with
    | none => .error .integrityViolation
    | some singleframes =>
      match emitFrames inc idcode ar_spec base_byte_ofst singleframes
          far 0 with
      | .error e => .error e
      | .ok frames =>
        match get_per_far_configuration_arrays inc ar_spec rawRest with
        | .error e => .error e
        | .ok out =>
          .ok (frames.map (fun cf => (idcode, cf)) ++ out)

/-- The bucket of `idcode_far_frames[idcode][far]`: the emitted frames
recorded under a given IDCODE and FAR. -/
def farBucket (out : List (Nat × ConfigFrame)) (idcode : Nat)
    (far : FrameAddressRegister) : List (Nat × ConfigFrame) :=
  out.filter fun p => p.1 == idcode && p.2.far == far

theorem skipPadding_two (l l2 : List (List Nat))
    (h : skipPadding 2 l = .ok l2) :
    ∃ z1 z2, l = z1 :: z2 :: l2 ∧ (z1.all fun w => w == 0) = true ∧
      (z2.all fun w => w == 0) = true := by
  cases l with
  | nil => cases h
  | cons z1 rest1 =>
    unfold skipPadding at h
    split at h
    · rename_i hz1
      cases rest1 with
      | nil => simp [skipPadding] at h
      | cons z2 rest2 =>
        unfold skipPadding at h
        split at h
        · rename_i hz2
          unfold skipPadding at h
          obtain rfl := Except.ok.inj h
          exact ⟨z1, z2, rfl, hz1, hz2⟩
        · cases h
    · cases h

theorem emitFrames_words_length (inc : FrameAddressIncrementer) (idcode : Nat)
    (ar_spec : ArchSpec) (base : Nat) (frames : List (List Nat))
    (far : FrameAddressRegister) (idx : Nat) (out : List ConfigFrame)
    (h : emitFrames inc idcode ar_spec base frames far idx = .ok out) :
    ∀ cf ∈ out, cf.words.length = ar_spec.frame_size_words ∧
      cf.spec = ar_spec := by
  have H : ∀ (n : Nat) (frames : List (List Nat)) (far : FrameAddressRegister)
      (idx : Nat) (out : List ConfigFrame), frames.length ≤ n →
      emitFrames inc idcode ar_spec base frames far idx = .ok out →
      ∀ cf ∈ out, cf.words.length = ar_spec.frame_size_words ∧
        cf.spec = ar_spec := by
    intro n
    induction n with
    | zero =>
      intro frames far idx out hle h
      cases frames with
      | nil =>
        rw [emitFrames.eq_def] at h
        obtain rfl := Except.ok.inj h
        intro cf hcf
        cases hcf
      | cons f rest => simp at hle
    | succ k ih =>
      intro frames far idx out hle h
      rw [emitFrames.eq_def] at h
      cases frames with
      | nil =>
        obtain rfl := Except.ok.inj h
        intro cf hcf
        cases hcf
      | cons f rest =>
        dsimp only at h
        simp only [List.length_cons] at hle
        cases hmk : ConfigFrame.mk?
            (base + idx * ar_spec.frame_size_words * 4) f far ar_spec with
        | none => rw [hmk] at h; cases h
        | some config_frame =>
          rw [hmk] at h
          dsimp only at h
          have hcf_len : config_frame.words.length =
              ar_spec.frame_size_words ∧ config_frame.spec = ar_spec := by
            unfold ConfigFrame.mk? at hmk
            split at hmk
            · rename_i hlen
              obtain rfl := Option.some.inj hmk
              exact ⟨hlen, rfl⟩
            · cases hmk
          cases hlast : inc.is_last_far_of_row idcode far with
          | none => rw [hlast] at h; cases h
          | some isLast =>
            rw [hlast] at h
            dsimp only at h
            by_cases hil : isLast = true
            · subst hil
              rw [if_pos rfl] at h
              split at h
              · cases h
              · rename_i rest2 hskip
                cases hincr : inc.increment idcode far with
                | none => rw [hincr] at h; cases h
                | some far2 =>
                  rw [hincr] at h
                  dsimp only at h
                  cases hrec : emitFrames inc idcode ar_spec base rest2 far2
                      (idx + 1 + NUM_END_OF_ROW_PADDING_FRAMES) with
                  | error e => rw [hrec] at h; cases h
                  | ok tail =>
                    rw [hrec] at h
                    obtain rfl := Except.ok.inj h
                    intro cf hcf
                    rcases List.mem_cons.mp hcf with rfl | htail
                    · exact hcf_len
                    · have hlen2 : rest2.length ≤ k := by
                        have := skipPadding_length_le _ _ _ hskip
                        omega
                      exact ih rest2 far2 _ tail hlen2 hrec cf htail
            · rw [if_neg hil] at h
              cases hincr : inc.increment idcode far with
              | none => rw [hincr] at h; cases h
              | some far2 =>
                rw [hincr] at h
                dsimp only at h
                cases hrec : emitFrames inc idcode ar_spec base rest far2
                    (idx + 1) with
                | error e => rw [hrec] at h; cases h
                | ok tail =>
                  rw [hrec] at h
                  obtain rfl := Except.ok.inj h
                  intro cf hcf
                  rcases List.mem_cons.mp hcf with rfl | htail
                  · exact hcf_len
                  · exact ih rest far2 _ tail (by omega) hrec cf htail
  exact H frames.length frames far idx out (Nat.le_refl _) h

theorem get_per_far_words_length (inc : FrameAddressIncrementer)
    (ar_spec : ArchSpec)
    (raw : List (Nat × FrameAddressRegister × Nat × List Nat))
    (out : List (Nat × ConfigFrame))
    (h : get_per_far_configuration_arrays inc ar_spec raw = .ok out) :
    ∀ pr ∈ out, pr.2.words.length = ar_spec.frame_size_words := by
  induction raw generalizing out with
  | nil =>
    obtain rfl := Except.ok.inj h
    intro pr hpr
    cases hpr
  | cons entry rawRest ih =>
    obtain ⟨idcode, far, base_byte_ofst, config_array⟩ := entry
    rw [get_per_far_configuration_arrays] at h
    cases hre : reshape_frames ar_spec.frame_size_words config_array with
    | none => rw [hre] at h; cases h
    | some singleframes =>
      rw [hre] at h
      dsimp only at h
      cases hemit : emitFrames inc idcode ar_spec base_byte_ofst
          singleframes far 0 with
      | error e => rw [hemit] at h; cases h
      | ok frames =>
        rw [hemit] at h
        dsimp only at h
        cases hrest : get_per_far_configuration_arrays inc ar_spec
            rawRest with
        | error e => rw [hrest] at h; cases h
        | ok out2 =>
          rw [hrest] at h
          obtain rfl := Except.ok.inj h
          intro pr hpr
          rcases List.mem_append.mp hpr with hm | hm
          · obtain ⟨cf, hcf, rfl⟩ := List.mem_map.mp hm
            exact (emitFrames_words_length inc idcode ar_spec base_byte_ofst
              singleframes far 0 frames hemit cf hcf).1
          · exact ih out2 hrest pr hm

theorem emitFrames_row_padding (inc : FrameAddressIncrementer) (idcode : Nat)
    (ar_spec : ArchSpec) (base : Nat) (f : List Nat) (rest : List (List Nat))
    (far : FrameAddressRegister) (idx : Nat) (out : List ConfigFrame)
    (hlast : inc.is_last_far_of_row idcode far = some true)
    (h : emitFrames inc idcode ar_spec base (f :: rest) far idx = .ok out) :
    ∃ z1 z2 rest2 cf far2 tail,
      rest = z1 :: z2 :: rest2 ∧
      (z1.all fun w => w == 0) = true ∧ (z2.all fun w => w == 0) = true ∧
      ConfigFrame.mk? (base + idx * ar_spec.frame_size_words * 4) f far
        ar_spec = some cf ∧
      inc.increment idcode far = some far2 ∧
      emitFrames inc idcode ar_spec base rest2 far2
        (idx + 1 + NUM_END_OF_ROW_PADDING_FRAMES) = .ok tail ∧
      out = cf :: tail := by
  rw [emitFrames.eq_def] at h
  dsimp only at h
  cases hmk : ConfigFrame.mk?
      (base + idx * ar_spec.frame_size_words * 4) f far ar_spec with
  | none => rw [hmk] at h; cases h
  | some cf =>
    rw [hmk, hlast] at h
    dsimp only at h
    rw [if_pos rfl] at h
    split at h
    · cases h
    · rename_i rest2 hskip
      obtain ⟨z1, z2, rfl, hz1, hz2⟩ := skipPadding_two rest rest2 hskip
      cases hincr : inc.increment idcode far with
      | none => rw [hincr] at h; cases h
      | some far2 =>
        rw [hincr] at h
        dsimp only at h
        cases hrec : emitFrames inc idcode ar_spec base rest2 far2
            (idx + 1 + NUM_END_OF_ROW_PADDING_FRAMES) with
        | error e => rw [hrec] at h; cases h
        | ok tail =>
          rw [hrec] at h
          obtain rfl := Except.ok.inj h
          exact ⟨z1, z2, rest2, cf, far2, tail, rfl, hz1, hz2, rfl, rfl,
            hrec, rfl⟩

theorem emitFrames_nonzero_padding (inc : FrameAddressIncrementer)
    (idcode : Nat) (ar_spec : ArchSpec) (base : Nat) (f z1 : List Nat)
    (rest : List (List Nat)) (far : FrameAddressRegister) (idx : Nat)
    (cf : ConfigFrame)
    (hlast : inc.is_last_far_of_row idcode far = some true)
    (hmk : ConfigFrame.mk? (base + idx * ar_spec.frame_size_words * 4) f far
      ar_spec = some cf) :
    ((z1.all fun w => w == 0) = false →
      emitFrames inc idcode ar_spec base (f :: z1 :: rest) far idx =
        .error .integrityViolation) ∧
    (∀ z2 rest2, rest = z2 :: rest2 → (z1.all fun w => w == 0) = true →
      (z2.all fun w => w == 0) = false →
      emitFrames inc idcode ar_spec base (f :: z1 :: rest) far idx =
        .error .integrityViolation) := by
  constructor
  · intro hz1
    rw [emitFrames.eq_def]
    dsimp only
    rw [hmk, hlast]
    dsimp only
    rw [if_pos rfl]
    have hskip : skipPadding NUM_END_OF_ROW_PADDING_FRAMES (z1 :: rest) =
        .error .integrityViolation := by
      simp [NUM_END_OF_ROW_PADDING_FRAMES, skipPadding, hz1]
    split
    · rename_i e he
      rw [hskip] at he
      obtain rfl := (Except.error.inj he)
      rfl
    · rename_i rest2 he
      rw [hskip] at he
      cases he
  · intro z2 rest2 hrest hz1 hz2
    subst hrest
    rw [emitFrames.eq_def]
    dsimp only
    rw [hmk, hlast]
    dsimp only
    rw [if_pos rfl]
    have hskip : skipPadding NUM_END_OF_ROW_PADDING_FRAMES
        (z1 :: z2 :: rest2) = .error .integrityViolation := by
      simp [NUM_END_OF_ROW_PADDING_FRAMES, skipPadding, hz1, hz2]
    split
    · rename_i e he
      rw [hskip] at he
      obtain rfl := (Except.error.inj he)
      rfl
    · rename_i r2 he
      rw [hskip] at he
      cases he

theorem farBucket_single (out : List (Nat × ConfigFrame))
    (hnd : (out.map fun p => (p.1, p.2.far)).Nodup) :
    ∀ pr ∈ out.map fun p => (p.1, p.2.far),
      (farBucket out pr.1 pr.2).length = 1 := by
  induction out with
  | nil => intro pr hpr; cases hpr
  | cons q rest ih =>
    simp only [List.map_cons, List.nodup_cons] at hnd
    intro pr hpr
    unfold farBucket
    rw [List.filter_cons]
    rcases List.mem_cons.mp hpr with heq | hm
    · rw [if_pos (by
        rw [heq]
        simp)]
      have hempty : rest.filter
          (fun p => p.1 == pr.1 && p.2.far == pr.2) = [] := by
        rw [List.filter_eq_nil_iff]
        intro p hp hcond
        simp only [Bool.and_eq_true, beq_iff_eq] at hcond
        have hmem : pr ∈ List.map (fun p => (p.1, p.2.far)) rest :=
          List.mem_map.mpr ⟨p, hp, Prod.ext hcond.1 hcond.2⟩
        rw [heq] at hmem
        exact hnd.1 hmem
      rw [hempty]
      rfl
    · have hne : ¬(q.1 = pr.1 ∧ q.2.far = pr.2) := by
        intro ⟨h1, h2⟩
        refine hnd.1 ?_
        have hpr_eq : pr = (q.1, q.2.far) := Prod.ext h1.symm h2.symm
        rw [← hpr_eq]
        exact hm
      rw [if_neg (by
        simp only [Bool.and_eq_true, beq_iff_eq]
        exact hne)]
      exact ih hnd.2 pr hm

/-- Claim C3: in the per-FAR configuration-array walk, (1) every emitted
ConfigFrame has exactly `frame_size_words` words; (2) immediately after
emitting the frame of the last FAR of a row, exactly
`NUM_END_OF_ROW_PADDING_FRAMES = 2` all-zero padding frames are consumed and
not emitted as configuration frames; (3) if such a padding frame contains a
nonzero word, the walk fails with IntegrityViolation; and (4) for a full
bitstream — one whose walk assigns pairwise distinct (IDCODE, FAR) pairs —
each individual FAR's bucket holds exactly one emitted ConfigFrame. -/
theorem c3_per_far_configuration_arrays :
    (∀ (inc : FrameAddressIncrementer) (ar_spec : ArchSpec)
        (raw : List (Nat × FrameAddressRegister × Nat × List Nat))
        (out : List (Nat × ConfigFrame)),
      get_per_far_configuration_arrays inc ar_spec raw = .ok out →
      ∀ pr ∈ out, pr.2.words.length = ar_spec.frame_size_words) ∧
    (∀ (inc : FrameAddressIncrementer) (idcode : Nat) (ar_spec : ArchSpec)
        (base : Nat) (f : List Nat) (rest : List (List Nat))
        (far : FrameAddressRegister) (idx : Nat) (out : List ConfigFrame),
      inc.is_last_far_of_row idcode far = some true →
      emitFrames inc idcode ar_spec base (f :: rest) far idx = .ok out →
      ∃ z1 z2 rest2 cf far2 tail,
        rest = z1 :: z2 :: rest2 ∧
        (z1.all fun w => w == 0) = true ∧
        (z2.all fun w => w == 0) = true ∧
        ConfigFrame.mk? (base + idx * ar_spec.frame_size_words * 4) f far
          ar_spec = some cf ∧
        inc.increment idcode far = some far2 ∧
        emitFrames inc idcode ar_spec base rest2 far2
          (idx + 1 + NUM_END_OF_ROW_PADDING_FRAMES) = .ok tail ∧
        out = cf :: tail) ∧
    (∀ (inc : FrameAddressIncrementer) (idcode : Nat) (ar_spec : ArchSpec)
        (base : Nat) (f z1 : List Nat) (rest : List (List Nat))
        (far : FrameAddressRegister) (idx : Nat) (cf : ConfigFrame),
      inc.is_last_far_of_row idcode far = some true →
      ConfigFrame.mk? (base + idx * ar_spec.frame_size_words * 4) f far
        ar_spec = some cf →
      (((z1.all fun w => w == 0) = false →
        emitFrames inc idcode ar_spec base (f :: z1 :: rest) far idx =
          .error .integrityViolation) ∧
      (∀ z2 rest2, rest = z2 :: rest2 → (z1.all fun w => w == 0) = true →
        (z2.all fun w => w == 0) = false →
        emitFrames inc idcode ar_spec base (f :: z1 :: rest) far idx =
          .error .integrityViolation))) ∧
    (∀ (out : List (Nat × ConfigFrame)),
      (out.map fun p => (p.1, p.2.far)).Nodup →
      ∀ pr ∈ out.map fun p => (p.1, p.2.far),
        (farBucket out pr.1 pr.2).length = 1) :=
  ⟨get_per_far_words_length,
   emitFrames_row_padding,
   fun inc idcode ar_spec base f z1 rest far idx cf hlast hmk =>
     emitFrames_nonzero_padding inc idcode ar_spec base f z1 rest far idx cf
       hlast hmk,
   farBucket_single⟩

/-- The device of the C3 witness is the C2 example device restricted to its
first row and column: a one-word frame architecture. -/
def c3ExampleSpec : ArchSpec :=
  { UltraScaleSpec with frame_size_words := 1 }

/-- The last FAR of row 0 on the C2 example device: the last minor (57) of
the last standard column (2). -/
def c3ExampleFar : FrameAddressRegister :=
  ⟨0, .CLB_IO_CLK, 0, 2, 57, UltraScalePlusSpec⟩

/-- Witness for C3: walking one data frame at the last FAR of a row followed
by the two all-zero padding frames emits exactly the data frame, consumes
the padding, and auto-increments the FAR. -/
theorem c3_per_far_configuration_arrays_witness :
    ∃ z1 z2 rest2 cf far2 tail,
      ([[0], [0]] : List (List Nat)) = z1 :: z2 :: rest2 ∧
      (z1.all fun w => w == 0) = true ∧
      (z2.all fun w => w == 0) = true ∧
      ConfigFrame.mk? (0 + 0 * c3ExampleSpec.frame_size_words * 4) [5]
        c3ExampleFar c3ExampleSpec = some cf ∧
      c2ExampleIncrementer.increment 7 c3ExampleFar = some far2 ∧
      emitFrames c2ExampleIncrementer 7 c3ExampleSpec 0 rest2 far2
        (0 + 1 + NUM_END_OF_ROW_PADDING_FRAMES) = .ok tail ∧
      ([⟨0, [5], c3ExampleFar, c3ExampleSpec⟩] : List ConfigFrame) =
        cf :: tail :=
  c3_per_far_configuration_arrays.2.1 c2ExampleIncrementer 7 c3ExampleSpec 0
    [5] [[0], [0]] c3ExampleFar 0 [⟨0, [5], c3ExampleFar, c3ExampleSpec⟩]
    (by decide)
    (by simp [emitFrames, ConfigFrame.mk?, c3ExampleSpec, c3ExampleFar,
      FrameAddressIncrementer.is_last_far_of_row,
      FrameAddressIncrementer.get_colMajors_numMinors_count,
      FrameAddressIncrementer.increment, c2ExampleIncrementer, skipPadding,
      NUM_END_OF_ROW_PADDING_FRAMES, UltraScaleSpec, UltraScalePlusSpec])

end Bitfiltrator
